import Mathlib

/-
Verification development for the devlogs repository.

Shallow embedding of the operation-rollup engine (`devlogs/rollup.py`), the
tail/search cursor protocol and query builder (`devlogs/opensearch/queries.py`),
the ingestion circuit breaker (`devlogs/handler.py`) and the operation context
tracker (`devlogs/context.py`).  Documents are modelled as records of optional
fields (a Python dict's `.get` returning `None` for a missing key becomes
`Option`), the document store as a list of stored documents with the search
semantics of the store interface (sort by `(timestamp, _id)`, `search_after`,
`size`), and timestamps as ISO-8601 strings parsed to microseconds since the
epoch.  All timestamps written by the system itself are ISO-8601 UTC strings
with a trailing `Z` (see `handler.format_record` and `rollup._to_iso`), so the
embedding's documents carry string timestamps.
-/

set_option maxRecDepth 10000

namespace Devlogs

/- Character-list implementations of the string primitives the embedding
needs (strip, lower/upper, replace, split).  They operate on `String.data` so
that every definition evaluates by kernel reduction. -/

/-- Whitespace characters stripped by Python's `str.strip()`. -/
def isSpaceChar (c : Char) : Bool :=
  c.toNat = 32 || c.toNat = 9 || c.toNat = 10 || c.toNat = 13
    || c.toNat = 11 || c.toNat = 12

/-- Python `str.strip()`. -/
def strTrim (s : String) : String :=
  String.mk (((s.data.dropWhile isSpaceChar).reverse.dropWhile isSpaceChar).reverse)

def toLowerChar (c : Char) : Char :=
  if 65 ≤ c.toNat ∧ c.toNat ≤ 90 then Char.ofNat (c.toNat + 32) else c

def toUpperChar (c : Char) : Char :=
  if 97 ≤ c.toNat ∧ c.toNat ≤ 122 then Char.ofNat (c.toNat - 32) else c

/-- ASCII `str.lower()` (the level names this system compares are ASCII). -/
def strToLower (s : String) : String := String.mk (s.data.map toLowerChar)

/-- ASCII `str.upper()`. -/
def strToUpper (s : String) : String := String.mk (s.data.map toUpperChar)

/-- Splitting scan: flush the accumulator at each non-overlapping separator
occurrence, left to right.  Each step consumes at least one character, so
`length + 1` fuel is never exhausted for a non-empty separator. -/
def splitOnCharsAux (sep : List Char) : Nat → List Char → List Char → List (List Char)
  | 0, remaining, acc => [acc.reverse ++ remaining]
  | fuel + 1, remaining, acc =>
    if sep.isPrefixOf remaining then
      acc.reverse :: splitOnCharsAux sep fuel (remaining.drop sep.length) []
    else
      match remaining with
      | [] => [acc.reverse]
      | c :: rest => splitOnCharsAux sep fuel rest (c :: acc)

/-- Python `str.split(sep)` for a non-empty separator (the only use here). -/
def strSplitOn (s sep : String) : List String :=
  if sep = "" then [s]
  else (splitOnCharsAux sep.data (s.data.length + 1) s.data []).map String.mk

/-- Replacement scan of Python `str.replace`, left to right, non-overlapping. -/
def replaceCharsAux (pat repl : List Char) : Nat → List Char → List Char
  | 0, remaining => remaining
  | fuel + 1, remaining =>
    if pat.isPrefixOf remaining then
      repl ++ replaceCharsAux pat repl fuel (remaining.drop pat.length)
    else
      match remaining with
      | [] => []
      | c :: rest => c :: replaceCharsAux pat repl fuel rest

/-- Python `str.replace(pat, repl)` for a non-empty pattern. -/
def strReplace (s pat repl : String) : String :=
  if pat = "" then s
  else String.mk (replaceCharsAux pat.data repl.data (s.data.length + 1) s.data)

/-- Modelled from the spec: `normalize_level` from `devlogs/levels.py`, a file
that is not present in the source tree (only its importers are).  Per spec
section 4.1 it canonicalizes free-form severity strings into the fixed set
debug, info, warning, error, critical, case-insensitively; unknown or empty
input yields `None`.  The spec's numeric-severity inputs do not arise in this
embedding, whose documents carry string (or absent) levels. -/
def normalize_level (level : Option String) : Option String :=
  match level with
  | none => none
  | some s =>
    let t := strToLower (strTrim s)
    if t = "debug" ∨ t = "info" ∨ t = "warning" ∨ t = "error" ∨ t = "critical" then
      some t
    else
      none

/-- Embeds `rollup._normalize_operation_id`: `None` stays `None`, strings are
stripped of surrounding whitespace and a blank result becomes `None`.  The
Python fallback `str(value).strip()` for non-string values reduces to the same
strip-and-blank-check on the value's string rendering, which is how non-string
ids are represented here. -/
def normalize_operation_id (value : Option String) : Option String :=
  match value with
  | none => none
  | some s =>
    let t := strTrim s
    if t = "" then none else some t

/-- Days from the civil epoch 1970-01-01 for a proleptic Gregorian date
(standard days-from-civil algorithm), used to embed Python `datetime`
comparisons and rendering as integer microseconds since the epoch. -/
def daysFromCivil (y : Int) (m d : Nat) : Int :=
  let y' : Int := if m ≤ 2 then y - 1 else y
  let era : Int := Int.fdiv y' 400
  let yoe : Nat := (y' - era * 400).toNat
  let mp : Nat := if m > 2 then m - 3 else m + 9
  let doy : Nat := (153 * mp + 2) / 5 + d - 1
  let doe : Nat := yoe * 365 + yoe / 4 - yoe / 100 + doy
  era * 146097 + (doe : Int) - 719468

/-- Inverse of `daysFromCivil` (standard civil-from-days algorithm). -/
def civilFromDays (z0 : Int) : Int × Nat × Nat :=
  let z : Int := z0 + 719468
  let era : Int := Int.fdiv z 146097
  let doe : Nat := (z - era * 146097).toNat
  let yoe : Nat := (doe - doe / 1460 + doe / 36524 - doe / 146096) / 365
  let y : Int := (yoe : Int) + era * 400
  let doy : Nat := doe - (365 * yoe + yoe / 4 - yoe / 100)
  let mp : Nat := (5 * doy + 2) / 153
  let d : Nat := doy - (153 * mp + 2) / 5 + 1
  let m : Nat := if mp < 10 then mp + 3 else mp - 9
  (if m ≤ 2 then y + 1 else y, m, d)

def isDigitChar (c : Char) : Bool := 48 ≤ c.toNat && c.toNat ≤ 57

def isDigits (s : String) : Bool :=
  s.length > 0 && s.data.all isDigitChar

def natOfDigits (s : String) : Nat :=
  s.data.foldl (fun n c => n * 10 + (c.toNat - 48)) 0

def isLeapYear (y : Int) : Bool :=
  (y % 4 == 0 && y % 100 != 0) || y % 400 == 0

def daysInMonth (y : Int) (m : Nat) : Nat :=
  if m = 2 then (if isLeapYear y then 29 else 28)
  else if m = 4 ∨ m = 6 ∨ m = 9 ∨ m = 11 then 30
  else 31

/-- Parses the `YYYY-MM-DD` date part accepted by `datetime.fromisoformat`. -/
def parseDatePart (s : String) : Option (Int × Nat × Nat) :=
  match strSplitOn s "-" with
  | [ys, ms, ds] =>
    if ys.length = 4 && ms.length = 2 && ds.length = 2
        && isDigits ys && isDigits ms && isDigits ds then
      let y : Int := (natOfDigits ys : Int)
      let m := natOfDigits ms
      let d := natOfDigits ds
      if 1 ≤ m ∧ m ≤ 12 ∧ 1 ≤ d ∧ d ≤ daysInMonth y m then some (y, m, d) else none
    else none
  | _ => none

/-- Parses a fractional-second field of one to six digits into microseconds. -/
def parseFracPart (s : String) : Option Nat :=
  if 1 ≤ s.length ∧ s.length ≤ 6 ∧ isDigits s = true then
    some (natOfDigits s * 10 ^ (6 - s.length))
  else none

/-- Parses `HH:MM:SS[.ffffff]` (or `HH:MM`) into microseconds within the day. -/
def parseClockPart (s : String) : Option Nat :=
  let fromHMS (hs ms ss : String) (us : Nat) : Option Nat :=
    if hs.length = 2 && ms.length = 2 && ss.length = 2
        && isDigits hs && isDigits ms && isDigits ss then
      let h := natOfDigits hs
      let mi := natOfDigits ms
      let sec := natOfDigits ss
      if h < 24 ∧ mi < 60 ∧ sec < 60 then
        some (((h * 3600 + mi * 60 + sec) * 1000000) + us)
      else none
    else none
  match strSplitOn s ":" with
  | [hs, ms] => fromHMS hs ms "00" 0
  | [hs, ms, sfrac] =>
    match strSplitOn sfrac "." with
    | [ss] => fromHMS hs ms ss 0
    | [ss, frac] =>
      match parseFracPart frac with
      | some us => fromHMS hs ms ss us
      | none => none
    | _ => none
  | _ => none

/-- Parses a `±HH:MM` UTC offset into signed minutes. -/
def parseOffsetPart (sign : Int) (s : String) : Option Int :=
  match strSplitOn s ":" with
  | [hs, ms] =>
    if hs.length = 2 && ms.length = 2 && isDigits hs && isDigits ms then
      let h := natOfDigits hs
      let mi := natOfDigits ms
      if h ≤ 23 ∧ mi < 60 then some (sign * ((h * 60 + mi) : Int)) else none
    else none
  | _ => none

/-- Parses the time-of-day part including an optional `+HH:MM`/`-HH:MM`
offset, returning (microseconds within the day, offset minutes).  A time
without an offset is treated as UTC; Python would instead produce a naive
datetime, but every timestamp the system itself writes carries a `Z`. -/
def parseTimePart (s : String) : Option (Nat × Int) :=
  match strSplitOn s "+" with
  | [clock, off] =>
    match parseClockPart clock, parseOffsetPart 1 off with
    | some us, some mins => some (us, mins)
    | _, _ => none
  | [plain] =>
    match strSplitOn plain "-" with
    | [clock, off] =>
      match parseClockPart clock, parseOffsetPart (-1) off with
      | some us, some mins => some (us, mins)
      | _, _ => none
    | [clock] => (parseClockPart clock).map (fun us => (us, 0))
    | _ => none
  | _ => none

/-- Embeds `rollup._parse_timestamp` for string-valued timestamps: replace
`Z` with `+00:00`, then parse with `datetime.fromisoformat` semantics on the
ISO-8601 subset the system exchanges, yielding microseconds since the epoch
(UTC).  Unparseable strings and `None` yield `None`.  The numeric branch of
the Python function (epoch ints/floats) does not arise for the string-typed
documents modelled here. -/
def parse_timestamp (value : Option String) : Option Int :=
  match value with
  | none => none
  | some v0 =>
    let v := strReplace v0 "Z" "+00:00"
    match strSplitOn v "T" with
    | [d] =>
      (parseDatePart d).map (fun ymd => daysFromCivil ymd.1 ymd.2.1 ymd.2.2 * 86400000000)
    | [d, t] =>
      match parseDatePart d, parseTimePart t with
      | some ymd, some (us, offMin) =>
        some (daysFromCivil ymd.1 ymd.2.1 ymd.2.2 * 86400000000 + (us : Int) - offMin * 60000000)
      | _, _ => none
    | _ => none

def padNat (w : Nat) (n : Nat) : String :=
  let s := toString n
  String.mk (List.replicate (w - s.length) '0') ++ s

/-- Embeds `rollup._to_iso`: renders microseconds since the epoch back to an
ISO-8601 UTC string, microseconds printed (six digits) only when non-zero,
with the `+00:00` suffix replaced by `Z` exactly as the source does. -/
def to_iso (value : Option Int) : Option String :=
  value.map (fun t =>
    let days := Int.fdiv t 86400000000
    let rem : Nat := (t - days * 86400000000).toNat
    let ymd := civilFromDays days
    let us := rem % 1000000
    let secs := rem / 1000000
    padNat 4 ymd.1.toNat ++ "-" ++ padNat 2 ymd.2.1 ++ "-" ++ padNat 2 ymd.2.2
      ++ "T" ++ padNat 2 (secs / 3600) ++ ":" ++ padNat 2 ((secs / 60) % 60)
      ++ ":" ++ padNat 2 (secs % 60)
      ++ (if us = 0 then "" else "." ++ padNat 6 us) ++ "Z")

/-- Code points of a string, the sequence Python compares strings by. -/
def strKey (s : String) : List Nat := s.data.map Char.toNat

/-- Strict lexicographic comparison of strings by code points (the comparison
Python and the store apply to id strings and ISO timestamp strings). -/
def strLtB (a b : String) : Bool :=
  decide (List.Lex (fun x y : Nat => x < y) (strKey a) (strKey b))

def strLeB (a b : String) : Bool := !(strLtB b a)

/-- Propositional form of `strLtB`. -/
def strLt (a b : String) : Prop := strLtB a b = true

/-- Sort key of a hit under the store's `[{timestamp}, {_id}]` sort: the raw
timestamp string and the document id.  ISO-8601 UTC `Z` strings of equal
format order lexicographically exactly as their instants do. -/
abbrev SKey := String × String

/-- Strict lexicographic order on sort keys, as a boolean. -/
def keyLtb (a b : SKey) : Bool :=
  strLtB a.1 b.1 || (a.1 == b.1 && strLtB a.2 b.2)

/-- Strict lexicographic order on sort keys, as a proposition. -/
def keyLt (a b : SKey) : Prop := keyLtb a b = true

instance (a b : SKey) : Decidable (keyLt a b) := by
  unfold keyLt; infer_instance

/-- Value stored under a document's `doc_type` key: the handler writes either
the plain string `"operation"` or the join-style object
`{"name": "log_entry", "parent": operation_id}`; rollup writes the plain
string `"operation"`. -/
inductive DocTypeVal
  | tag (s : String)
  | joinRel (name parent : String)
  deriving DecidableEq, Repr

/-- Compacted child entry embedded in a rolled-up parent document, the output
shape of `rollup._compact_child_doc`. -/
structure CompactEntry where
  timestamp : Option String := none
  level : Option String := none
  logger_name : Option String := none
  message : Option String := none
  area : Option String := none
  operation_id : Option String := none
  parent_operation_id : Option String := none
  pathname : Option String := none
  lineno : Option Int := none
  exception : Option String := none
  features : Option (List (String × String)) := none
  deriving DecidableEq, Repr

/-- Stored document body.  Python documents are dicts; a missing key read via
`.get` is `None`, so every field is an `Option` defaulting to `none`.  The
fields are those the modelled code paths read or write: the flat log-entry
fields plus the aggregate fields a rolled-up parent carries.  Feature values
are represented by their string rendering. -/
structure Doc where
  timestamp : Option String := none
  level : Option String := none
  logger_name : Option String := none
  message : Option String := none
  area : Option String := none
  operation_id : Option String := none
  parent_operation_id : Option String := none
  pathname : Option String := none
  lineno : Option Int := none
  exception : Option String := none
  features : Option (List (String × String)) := none
  doc_type : Option DocTypeVal := none
  entries : Option (List CompactEntry) := none
  counts_by_level : Option (List (String × Nat)) := none
  error_count : Option Nat := none
  start_time : Option String := none
  end_time : Option String := none
  last_message : Option String := none
  deriving DecidableEq, Repr

/-- Query AST mirroring the dict shapes the repository sends to the store:
`bool` (with `must`/`filter`/`should`/`must_not`/`minimum_should_match`),
`term`, `terms`, `exists`, `range` with `gte`, and `simple_query_string`. -/
inductive Query
  | boolQ (must filt should mustNot : List Query) (minimumShouldMatch : Option Nat)
  | term (field value : String)
  | terms (field : String) (values : List String)
  | existsQ (field : String)
  | rangeGte (field value : String)
  | sqs (query : String)

/-- Keyword `term` matching on the fields the repository queries.  A `term`
query against the join-style `doc_type` object matches its relation name
(join-field semantics, also the behaviour of the repository's fake client). -/
def termMatches (d : Doc) (field value : String) : Bool :=
  match field with
  | "doc_type" =>
    match d.doc_type with
    | some (.tag s) => s == value
    | some (.joinRel name _) => name == value
    | none => false
  | "area" => d.area == some value
  | "operation_id" => d.operation_id == some value
  | "level" => d.level == some value
  | "timestamp" => d.timestamp == some value
  | _ => false

def fieldExists (d : Doc) (field : String) : Bool :=
  match field with
  | "doc_type" => d.doc_type.isSome
  | "area" => d.area.isSome
  | "operation_id" => d.operation_id.isSome
  | "level" => d.level.isSome
  | "timestamp" => d.timestamp.isSome
  | _ => false

def rangeGteMatches (d : Doc) (field value : String) : Bool :=
  match field with
  | "timestamp" =>
    match d.timestamp with
    | some t => strLeB value t
    | none => false
  | _ => false

/-- Substring test with Python `in` semantics (empty pattern matches). -/
def strContains (s pat : String) : Bool :=
  if pat = "" then true else (strSplitOn s pat).length ≥ 2

/-- Free-text `simple_query_string` semantics: AND of the query's
whitespace-separated tokens, each matched case-insensitively as a substring
of the searchable text fields (message, logger name, operation id, area). -/
def sqsMatches (d : Doc) (query : String) : Bool :=
  let blob := strToLower (d.message.getD "" ++ " " ++ d.logger_name.getD "" ++ " "
      ++ d.operation_id.getD "" ++ " " ++ d.area.getD "")
  ((strSplitOn query " ").filter (fun t => t ≠ "")).all
    (fun t => strContains blob (strToLower t))

mutual

/-- Whether a document matches a query, under the store's semantics.  A `bool`
query requires all of `must` and `filter`, none of `must_not`, and at least
`minimum_should_match` of `should` (defaulting to 1 when `should` clauses are
present without `must`/`filter`, else 0, as the store does). -/
def docMatches (d : Doc) : Query → Bool
  | .term f v => termMatches d f v
  | .terms f vs => vs.any (fun v => termMatches d f v)
  | .existsQ f => fieldExists d f
  | .rangeGte f v => rangeGteMatches d f v
  | .sqs q => sqsMatches d q
  | .boolQ must filt should mustNot msm =>
    let required : Nat :=
      match msm with
      | some k => k
      | none => if should.isEmpty then 0 else if must.isEmpty && filt.isEmpty then 1 else 0
    docMatchesAll d must && docMatchesAll d filt && !(docMatchesAny d mustNot)
      && decide (required ≤ docMatchesCount d should)

def docMatchesAll (d : Doc) : List Query → Bool
  | [] => true
  | q :: rest => docMatches d q && docMatchesAll d rest

def docMatchesAny (d : Doc) : List Query → Bool
  | [] => false
  | q :: rest => docMatches d q || docMatchesAny d rest

def docMatchesCount (d : Doc) : List Query → Nat
  | [] => 0
  | q :: rest => (if docMatches d q then 1 else 0) + docMatchesCount d rest

end

/-- Python truthiness of an optional string (`if s:`): absent and empty are
both falsy. -/
def truthy (o : Option String) : Option String :=
  match o with
  | some s => if s = "" then none else some s
  | none => none

/-- Embeds `queries._normalize_level_terms`: the normalized level, its
upper-case rendering, and the stripped raw input when non-empty, as a sorted
deduplicated list (Python builds a set and sorts it). -/
def normalize_level_terms (level : Option String) : Option (List String) :=
  match normalize_level level with
  | none => none
  | some normalized =>
    let base := [normalized, strToUpper normalized]
    let withRaw :=
      match level with
      | some raw0 =>
        let raw := strTrim raw0
        if raw = "" then base else base ++ [raw]
      | none => base
    let dedup := withRaw.foldl (fun acc s => if s ∈ acc then acc else acc ++ [s]) []
    some (dedup.insertionSort (fun a b => strLeB a b = true))

/-- Embeds `queries._build_log_query`: a `bool` query whose filters always
start with the disjunction (doc_type = "log_entry") OR (doc_type absent),
followed by optional area/operation_id equality filters, a `terms` level
filter, and a `timestamp >= since` range filter; a free-text query adds a
`simple_query_string` must clause.  The `if area:`-style guards in the source
are Python truthiness tests, embedded via `truthy`. -/
def build_log_query (query area operation_id level since : Option String) : Query :=
  let docTypeFilter : Query :=
    .boolQ [] [] [.term "doc_type" "log_entry",
                  .boolQ [] [] [] [.existsQ "doc_type"] none] [] (some 1)
  let filters := [docTypeFilter]
  let filters := filters ++ (match truthy area with
    | some a => [Query.term "area" a]
    | none => [])
  let filters := filters ++ (match truthy operation_id with
    | some o => [Query.term "operation_id" o]
    | none => [])
  let filters := filters ++ (match normalize_level_terms level with
    | some ts => [Query.terms "level" ts]
    | none => [])
  let filters := filters ++ (match truthy since with
    | some s => [Query.rangeGte "timestamp" s]
    | none => [])
  let must := match truthy query with
    | some q => [Query.sqs q]
    | none => []
  .boolQ must filters [] [] none

/-- Document as stored in the index: id, source body, and the routing used at
write time. -/
structure StoredDoc where
  id : String
  source : Doc
  routing : Option String := none
  deriving DecidableEq, Repr

abbrev Store := List StoredDoc

/-- Sort key of a stored document under the `[{timestamp}, {_id}]` sort. -/
def hitKey (sd : StoredDoc) : SKey := (sd.source.timestamp.getD "", sd.id)

/-- Search hit as returned to the caller by `_hits_to_docs`: the source body
plus the document id and the hit's sort key. -/
structure ResultDoc where
  source : Doc
  id : String
  sort : SKey
  deriving DecidableEq, Repr

def toResult (sd : StoredDoc) : ResultDoc := ⟨sd.source, sd.id, hitKey sd⟩

/-- Descending (timestamp, id) order as a sorting relation ("a may come
before b"). -/
def descByKey (a b : StoredDoc) : Prop := keyLtb (hitKey a) (hitKey b) = false

/-- Ascending (timestamp, id) order as a sorting relation. -/
def ascByKey (a b : StoredDoc) : Prop := keyLtb (hitKey b) (hitKey a) = false

instance : DecidableRel descByKey := fun a b => by
  unfold descByKey; infer_instance

instance : DecidableRel ascByKey := fun a b => by
  unfold ascByKey; infer_instance

/-- Document-store search semantics (the abstract store interface of spec
section 6, also implemented by the repository's fake client): filter by the
query, sort by `(timestamp, _id)` in the requested direction, resume strictly
after the `search_after` sort key in that direction, truncate to `size`. -/
def searchStore (st : Store) (q : Query) (descending : Bool) (size : Nat)
    (searchAfter : Option SKey) : List ResultDoc :=
  let hits := st.filter (fun sd => docMatches sd.source q)
  let sorted := if descending then hits.insertionSort descByKey
                else hits.insertionSort ascByKey
  let after := match searchAfter with
    | none => sorted
    | some c =>
      if descending then sorted.filter (fun sd => keyLtb (hitKey sd) c)
      else sorted.filter (fun sd => keyLtb c (hitKey sd))
  (after.take size).map toResult

/-- Embeds `queries.search_logs`: one-shot search, sorted by timestamp then id
descending, truncated to `limit`. -/
def search_logs (st : Store) (query area operation_id level since : Option String)
    (limit : Nat := 50) : List ResultDoc :=
  searchStore st (build_log_query query area operation_id level since) true limit none

/-- Embeds `queries.tail_logs`: always fetches in descending order, sets the
next cursor to the sort key of the last fetched document (the oldest of the
descending page) before reversing the page for chronological display; an
empty page returns the old cursor unchanged. -/
def tail_logs (st : Store) (query operation_id area level since : Option String)
    (limit : Nat) (search_after : Option SKey) : List ResultDoc × Option SKey :=
  let docs := searchStore st (build_log_query query area operation_id level since)
    true limit search_after
  match docs.getLast? with
  | some lastDoc => (docs.reverse, some lastDoc.sort)
  | none => ([], search_after)

/-- Repeatedly calls `tail_logs` with no filters, feeding each returned cursor
into the next call, collecting the pages until a call yields nothing new. -/
def tailPagesAux (st : Store) (limit : Nat) : Nat → Option SKey → List (List ResultDoc)
  | 0, _ => []
  | fuel + 1, cursor =>
    let r := tail_logs st none none none none none limit cursor
    if r.1.isEmpty then [] else r.1 :: tailPagesAux st limit fuel r.2

def tailPages (st : Store) (limit : Nat) : List (List ResultDoc) :=
  tailPagesAux st limit (st.length + 1) none

/-- Effects issued against the store by the rollup engine (searches are pure
reads and are not recorded). -/
inductive StoreEffect
  | refreshIndex
  | indexWrite (id : String) (body : Doc) (routing : Option String)
  | deleteByQuery (operationIds : List String)
  deriving DecidableEq, Repr

/-- Store semantics of `client.index` with an explicit id: overwrite the
document with that id if present, else append it. -/
def indexDoc (st : Store) (id : String) (body : Doc) (routing : Option String) : Store :=
  if st.any (fun sd => sd.id == id) then
    st.map (fun sd => if sd.id == id then ⟨id, body, routing⟩ else sd)
  else
    st ++ [⟨id, body, routing⟩]

/-- Query sent by `rollup._rollup_group`'s `delete_by_query`: child log
entries whose operation id is in the group's id set. -/
def childDeleteQuery (operationIds : List String) : Query :=
  .boolQ [] [.term "doc_type" "log_entry", .terms "operation_id" operationIds] [] [] none

/-- Store semantics of `client.delete_by_query`: remove every matching
document. -/
def deleteByQueryStore (st : Store) (operationIds : List String) : Store :=
  st.filter (fun sd => !(docMatches sd.source (childDeleteQuery operationIds)))

/-- Query sent by `rollup._iter_child_docs`: all child log entries, optionally
restricted to `timestamp >= since`. -/
def childCollectQuery (since : Option String) : Query :=
  .boolQ [] ([.term "doc_type" "log_entry"] ++ (match truthy since with
    | some s => [Query.rangeGte "timestamp" s]
    | none => [])) [] [] none

/-- Paged scan of `rollup._iter_child_docs` / `_collect_all_child_docs`:
ascending `(timestamp, _id)` pages of size 500 via `search_after`, stopping at
the first empty page.  The unbounded Python `while True` loop is embedded with
fuel: against a static store each non-empty page strictly advances the cursor,
so `st.length + 1` iterations always reach the empty page. -/
def collectAllChildDocsAux (st : Store) (since : Option String) :
    Nat → Option SKey → List Doc
  | 0, _ => []
  | fuel + 1, cursor =>
    let hits := searchStore st (childCollectQuery since) false 500 cursor
    match hits.getLast? with
    | none => []
    | some lastHit => hits.map (fun h => h.source)
        ++ collectAllChildDocsAux st since fuel (some lastHit.sort)

def collect_all_child_docs (st : Store) (since : Option String := none) : List Doc :=
  collectAllChildDocsAux st since (st.length + 1) none

/-- Embeds `rollup._format_rollup_line`: "timestamp level logger message"
with absent parts rendered empty, stripped of surrounding whitespace. -/
def format_rollup_line (d : Doc) : String :=
  strTrim ((d.timestamp.getD "") ++ " " ++ ((normalize_level d.level).getD "") ++ " "
    ++ (d.logger_name.getD "") ++ " " ++ (d.message.getD ""))

/-- One iteration of the `rollup._build_parent_map` loop. -/
def bpmStep (pm : List (String × String)) (d : Doc) : List (String × String) :=
  match normalize_operation_id d.operation_id,
        normalize_operation_id d.parent_operation_id with
  | some oid, some pid =>
    if (List.lookup oid pm).isSome then pm else pm ++ [(oid, pid)]
  | _, _ => pm

/-- Embeds `rollup._build_parent_map`: operation_id to first-seen parent
operation id, over the normalized id pairs of every document. -/
def build_parent_map (docs : List Doc) : List (String × String) :=
  docs.foldl bpmStep []

/-- Loop body of `rollup._resolve_root`: follow parent links while the current
id has a mapping and has not been seen; a repeated id (cycle) stops the walk
and returns the last id reached.  The walk adds a distinct parent-map key to
`seen` on every step, so `pm.length + 1` fuel is never exhausted. -/
def resolveRootAux (pm : List (String × String)) : Nat → List String → String → String
  | 0, _, current => current
  | fuel + 1, seen, current =>
    match List.lookup current pm with
    | some parent =>
      if current ∈ seen then current
      else resolveRootAux pm fuel (current :: seen) parent
    | none => current

/-- Embeds `rollup._resolve_root`: `None`/blank input resolves to `None`,
otherwise the cycle-protected walk of the parent map. -/
def resolve_root (operation_id : Option String) (pm : List (String × String)) :
    Option String :=
  match operation_id with
  | none => none
  | some oid =>
    if oid = "" then none else some (resolveRootAux pm (pm.length + 1) [] oid)

/-- One rollup group: its documents in scan order and the distinct operation
ids folded into it (insertion order; Python keeps them in a set). -/
structure RollupGroup where
  docs : List Doc
  operationIds : List String
  deriving DecidableEq, Repr

/-- Adds a document to its root's group, preserving the dict insertion order
of `groups.setdefault(root_id, ...)`. -/
def updateGroup (groups : List (String × RollupGroup)) (root : String) (d : Doc)
    (oid : String) : List (String × RollupGroup) :=
  match groups with
  | [] => [(root, ⟨[d], [oid]⟩)]
  | (k, g) :: rest =>
    if k = root then
      (k, ⟨g.docs ++ [d],
           if oid ∈ g.operationIds then g.operationIds else g.operationIds ++ [oid]⟩) :: rest
    else
      (k, g) :: updateGroup rest root d oid

/-- One iteration of the `rollup._group_child_docs` loop against a fixed
parent map. -/
def gcdStep (pm : List (String × String)) (groups : List (String × RollupGroup))
    (d : Doc) : List (String × RollupGroup) :=
  match normalize_operation_id d.operation_id with
  | none => groups
  | some oid =>
    let root := match resolve_root (some oid) pm with
      | some r => if r = "" then oid else r
      | none => oid
    updateGroup groups root d oid

/-- Embeds `rollup._group_child_docs`: group documents by resolved root id
(documents with no usable operation id are skipped), tracking each group's
distinct operation ids. -/
def group_child_docs (docs : List Doc) : List (String × RollupGroup) :=
  docs.foldl (gcdStep (build_parent_map docs)) []

/-- Accumulator of the `_summarize_docs` loop, one field per local variable. -/
structure SummState where
  counts_by_level : List (String × Nat) := []
  error_count : Nat := 0
  start_time : Option Int := none
  end_time : Option Int := none
  last_message : Option String := none
  area : Option String := none
  parent_operation_id : Option String := none
  root_area : Option String := none
  lines : List String := []
  deriving DecidableEq, Repr

/-- Increment of `counts_by_level[level]`, preserving dict insertion order. -/
def bumpCount (counts : List (String × Nat)) (lvl : String) : List (String × Nat) :=
  match counts with
  | [] => [(lvl, 1)]
  | (k, n) :: rest =>
    if k = lvl then (k, n + 1) :: rest else (k, n) :: bumpCount rest lvl

/-- Level tally step: count the normalized level, and errors/criticals. -/
def stepLevel (s : SummState) (d : Doc) : SummState :=
  match normalize_level d.level with
  | some lvl =>
    { s with counts_by_level := bumpCount s.counts_by_level lvl,
             error_count := if lvl = "error" ∨ lvl = "critical" then s.error_count + 1
                            else s.error_count }
  | none => s

/-- First truthy area step (`if doc_area and area is None`). -/
def stepArea (s : SummState) (d : Doc) : SummState :=
  match truthy d.area with
  | some a => if s.area.isNone then { s with area := some a } else s
  | none => s

/-- Root-specific step: for documents whose normalized operation id equals the
(truthy) root id, record the first truthy area and first normalized parent
operation id. -/
def stepRoot (root_operation_id : Option String) (s : SummState) (d : Doc) : SummState :=
  match truthy root_operation_id with
  | some root =>
    if normalize_operation_id d.operation_id = some root then
      let s' := match truthy d.area with
        | some a => if s.root_area.isNone then { s with root_area := some a } else s
        | none => s
      match normalize_operation_id d.parent_operation_id with
      | some p =>
        if s'.parent_operation_id.isNone then { s' with parent_operation_id := some p }
        else s'
      | none => s'
    else s
  | none => s

/-- Timestamp step: parsed timestamps update the running min and max; the max
update also records the document's message as `last_message`.  Documents whose
timestamp does not parse leave all three untouched. -/
def stepTime (s : SummState) (d : Doc) : SummState :=
  match parse_timestamp d.timestamp with
  | some ts =>
    let s1 := match s.start_time with
      | none => { s with start_time := some ts }
      | some st0 => if ts < st0 then { s with start_time := some ts } else s
    match s1.end_time with
    | none => { s1 with end_time := some ts, last_message := d.message }
    | some et0 =>
      if et0 < ts then { s1 with end_time := some ts, last_message := d.message } else s1
  | none => s

/-- Legacy flattened-line step (appended for every document). -/
def stepLines (s : SummState) (d : Doc) : SummState :=
  { s with lines := s.lines ++ [format_rollup_line d] }

/-- One iteration of the `_summarize_docs` loop. -/
def summStep (root_operation_id : Option String) (s : SummState) (d : Doc) : SummState :=
  stepLines (stepTime (stepRoot root_operation_id (stepArea (stepLevel s d) d) d) d) d

/-- Summary dict produced by `rollup._summarize_docs`. -/
structure Summary where
  area : Option String
  start_time : Option String
  end_time : Option String
  counts_by_level : List (String × Nat)
  error_count : Nat
  last_message : Option String
  message : Option String
  timestamp : Option String
  parent_operation_id : Option String
  deriving DecidableEq, Repr

/-- Embeds the epilogue of `rollup._summarize_docs`: joins the non-empty
legacy lines, lets a truthy root-owned area override the generic first area,
renders the min/max instants back to ISO, and sets the parent document's
top-level `timestamp` to `end_time or start_time`. -/
def summFinish (s : SummState) : Summary :=
  let rollupMessage := String.intercalate "\n" (s.lines.filter (fun l => l ≠ ""))
  let area := match s.root_area with
    | some ra => if ra = "" then s.area else some ra
    | none => s.area
  { area := area,
    start_time := to_iso s.start_time,
    end_time := to_iso s.end_time,
    counts_by_level := s.counts_by_level,
    error_count := s.error_count,
    last_message := s.last_message,
    message := if rollupMessage = "" then none else some rollupMessage,
    timestamp := to_iso (s.end_time <|> s.start_time),
    parent_operation_id := s.parent_operation_id }

def summarize_docs (docs : List Doc) (root_operation_id : Option String := none) : Summary :=
  summFinish (docs.foldl (summStep root_operation_id) {})

/-- Embeds `rollup._compact_child_doc`. -/
def compact_child_doc (d : Doc) : CompactEntry :=
  { timestamp := d.timestamp,
    level := normalize_level d.level,
    logger_name := d.logger_name,
    message := d.message,
    area := d.area,
    operation_id := normalize_operation_id d.operation_id,
    parent_operation_id := normalize_operation_id d.parent_operation_id,
    pathname := d.pathname,
    lineno := d.lineno,
    exception := d.exception,
    features := d.features }

/-- Parent document built by `rollup._rollup_group`: doc_type "operation",
the root id, the compacted entries, and the summary's fields.  A summary
`parent_operation_id` of `none` corresponds to the key being absent from the
Python dict. -/
def parentDocOf (root_id : String) (docs : List Doc) : Doc :=
  let summary := summarize_docs docs (some root_id)
  { doc_type := some (.tag "operation"),
    operation_id := some root_id,
    entries := some (docs.map compact_child_doc),
    area := summary.area,
    start_time := summary.start_time,
    end_time := summary.end_time,
    counts_by_level := some summary.counts_by_level,
    error_count := some summary.error_count,
    last_message := summary.last_message,
    message := summary.message,
    timestamp := summary.timestamp,
    parent_operation_id := summary.parent_operation_id }

/-- Embeds `rollup._rollup_group`: upsert the parent document keyed and routed
by the root id, then bulk-delete the grouped children; returns the number of
documents folded together with the store state and the effects issued. -/
def rollup_group (st : Store) (root_id : String) (docs : List Doc)
    (operation_ids : List String) : Nat × Store × List StoreEffect :=
  if docs.isEmpty then (0, st, [])
  else
    let parentDoc := parentDocOf root_id docs
    let st1 := indexDoc st root_id parentDoc (some root_id)
    let effs1 := [StoreEffect.indexWrite root_id parentDoc (some root_id)]
    if operation_ids.isEmpty then (docs.length, st1, effs1)
    else
      (docs.length, deleteByQueryStore st1 operation_ids,
       effs1 ++ [StoreEffect.deleteByQuery operation_ids])

def sortStrings (l : List String) : List String :=
  l.insertionSort (fun a b => strLeB a b = true)

/-- Embeds `rollup.rollup_operation`: optional read-view refresh, blank-id
early return, full child scan, root resolution (`_resolve_root(...) or
operation_id`), and rollup of the resolved root's group if any. -/
def rollup_operation (st : Store) (operation_id : Option String)
    (refresh : Bool := false) : Nat × Store × List StoreEffect :=
  let effs0 := if refresh then [StoreEffect.refreshIndex] else []
  match normalize_operation_id operation_id with
  | none => (0, st, effs0)
  | some opId =>
    let docs := collect_all_child_docs st none
    if docs.isEmpty then (0, st, effs0)
    else
      let pm := build_parent_map docs
      let rootId := match resolve_root (some opId) pm with
        | some r => if r = "" then opId else r
        | none => opId
      let groups := group_child_docs docs
      match List.lookup rootId groups with
      | none => (0, st, effs0)
      | some g =>
        let ids := sortStrings g.operationIds
        let r := rollup_group st rootId g.docs ids
        (r.1, r.2.1, effs0 ++ r.2.2)

/-- Per-group loop of `rollup.rollup_operations`: roll up every group in
sorted root order, accumulating (children folded, parents created). -/
def rollupGroupsLoop (st : Store) (groups : List (String × RollupGroup)) :
    Nat × Nat × Store × List StoreEffect :=
  (sortStrings (groups.map Prod.fst)).foldl
    (fun acc rootId =>
      match List.lookup rootId groups with
      | none => acc
      | some g =>
        let ids := sortStrings g.operationIds
        let r := rollup_group acc.2.2.1 rootId g.docs ids
        if r.1 ≠ 0 then (acc.1 + r.1, acc.2.1 + 1, r.2.1, acc.2.2.2 ++ r.2.2)
        else (acc.1, acc.2.1, r.2.1, acc.2.2.2 ++ r.2.2))
    (0, 0, st, [])

/-- Embeds `rollup.rollup_operations`: scan all children (optionally since a
timestamp), group them by resolved root, and roll up every group. -/
def rollup_operations (st : Store) (since : Option String := none) :
    (Nat × Nat) × Store × List StoreEffect :=
  let docs := collect_all_child_docs st since
  if docs.isEmpty then ((0, 0), st, [])
  else
    let r := rollupGroupsLoop st (group_child_docs docs)
    ((r.1, r.2.1), r.2.2.1, r.2.2.2)

/-- Uniform display entry produced by `queries._normalize_entry`. -/
structure NormalizedEntry where
  timestamp : Option String
  level : Option String
  message : Option String
  logger_name : Option String
  area : Option String
  operation_id : Option String
  pathname : Option String
  lineno : Option Int
  exception : Option String
  features : Option (List (String × String))
  deriving DecidableEq, Repr

/-- Embeds `queries._normalize_entry`: reads the document's own top-level
fields, normalizing the level. -/
def normalize_entry (d : Doc) : NormalizedEntry :=
  { timestamp := d.timestamp,
    level := normalize_level d.level,
    message := d.message,
    logger_name := d.logger_name,
    area := d.area,
    operation_id := d.operation_id,
    pathname := d.pathname,
    lineno := d.lineno,
    exception := d.exception,
    features := d.features }

def normalizeLogEntriesAux (limit : Option Nat) :
    List NormalizedEntry → List Doc → List NormalizedEntry
  | acc, [] => acc
  | acc, d :: rest =>
    let acc' := acc ++ [normalize_entry d]
    match limit with
    | some l => if l ≤ acc'.length then acc'.take l
                else normalizeLogEntriesAux limit acc' rest
    | none => normalizeLogEntriesAux limit acc' rest

/-- Embeds `queries.normalize_log_entries`: one normalized entry per input
document, truncated to `limit` when given. -/
def normalize_log_entries (docs : List Doc) (limit : Option Nat := none) :
    List NormalizedEntry :=
  normalizeLogEntriesAux limit [] docs

/-- Class-level circuit-breaker state shared by all handler instances
(`OpenSearchHandler._circuit_open` / `_circuit_open_until` /
`_last_error_printed`).  Times are integers standing for the float seconds of
`time.time()`; the breaker only compares instants against instants plus the
fixed 60s/10s offsets, so behaviour is preserved on any discretized
timeline. -/
structure BreakerState where
  circuitOpen : Bool
  circuitOpenUntil : Int
  lastErrorPrinted : Int
  deriving DecidableEq, Repr

def circuitBreakerDuration : Int := 60

def errorPrintInterval : Int := 10

/-- Observable outcome of one `emit` call: whether a store write was
attempted, whether the "connection restored" notice was printed, and whether
a failure message was printed. -/
structure EmitResult where
  attempted : Bool
  printedRestored : Bool
  printedError : Bool
  deriving DecidableEq, Repr

/-- Embeds the circuit-breaker skeleton of `OpenSearchHandler.emit`: while the
breaker is open and the deadline has not passed, return without attempting a
write and without printing; otherwise attempt the write (when a client is
configured), closing the breaker and printing the restored notice on success
after an open period, or re-opening the breaker with a fresh `now + 60s`
deadline on failure, printing the error at most once per 10 seconds.  The
document shaping of `format_record` and the child/root routing branch both
precede a single `client.index` call and do not affect the breaker, so they
are not modelled. -/
def emit (s : BreakerState) (currentTime : Int) (hasClient writeSucceeds : Bool) :
    BreakerState × EmitResult :=
  if s.circuitOpen ∧ currentTime < s.circuitOpenUntil then
    (s, ⟨false, false, false⟩)
  else if hasClient then
    if writeSucceeds then
      ({ s with circuitOpen := false }, ⟨true, s.circuitOpen, false⟩)
    else
      let doPrint := decide (errorPrintInterval < currentTime - s.lastErrorPrinted)
      ({ circuitOpen := true,
         circuitOpenUntil := currentTime + circuitBreakerDuration,
         lastErrorPrinted := if doPrint then currentTime else s.lastErrorPrinted },
       ⟨true, false, doPrint⟩)
  else
    ({ s with circuitOpen := false }, ⟨false, s.circuitOpen, false⟩)

/-- One step of a call sequence: run `emit` against a configured client and
append its observable result. -/
def emitFold (acc : BreakerState × List EmitResult) (call : Int × Bool) :
    BreakerState × List EmitResult :=
  let r := emit acc.1 call.1 true call.2
  (r.1, acc.2 ++ [r.2])

/-- Runs a sequence of `emit` calls (time of call, whether the store write
would succeed) against a configured client, collecting the per-call results. -/
def runEmits (s : BreakerState) (calls : List (Int × Bool)) :
    BreakerState × List EmitResult :=
  calls.foldl emitFold (s, [])

/-- Ambient operation context held in the three context variables of
`devlogs/context.py`. -/
structure OperationContext where
  operation_id : Option String
  parent_operation_id : Option String
  area : Option String
  deriving DecidableEq, Repr

/-- Saved state of one `operation(...)` scope: the context-variable tokens
captured by the `set` calls (a token holds the variable's previous value;
`none` means the variable was not set by this scope), the decision whether
this scope should roll up on exit, and the resolved operation id. -/
structure OperationScope where
  tokenOp : Option String
  tokenParent : Option (Option String)
  tokenArea : Option (Option String)
  shouldRollup : Bool
  resolvedId : String
  deriving DecidableEq, Repr

/-- Embeds the entry half of `context.operation`: resolve the operation id
(a fresh uuid when omitted), decide `should_rollup` (rollup enabled and no
enclosing operation), set the operation id, promote the previous operation id
to parent when one exists, and set the area when provided. -/
def enterOperation (ctx : OperationContext) (operationId : Option String)
    (freshId : String) (area : Option String) (rollup : Option Bool)
    (rollupDefault : Bool) : OperationContext × OperationScope :=
  let opId := operationId.getD freshId
  let prev := ctx.operation_id
  let rollupEnabled := rollup.getD rollupDefault
  let shouldRollup := rollupEnabled && prev.isNone
  let ctx1 := { ctx with operation_id := some opId }
  let step2 : OperationContext × Option (Option String) :=
    match prev with
    | some p => ({ ctx1 with parent_operation_id := some p }, some ctx.parent_operation_id)
    | none => (ctx1, none)
  let step3 : OperationContext × Option (Option String) :=
    match area with
    | some a => ({ step2.1 with area := some a }, some ctx.area)
    | none => (step2.1, none)
  (step3.1,
   { tokenOp := prev, tokenParent := step2.2, tokenArea := step3.2,
     shouldRollup := shouldRollup, resolvedId := opId })

/-- Embeds the exit half of `context.operation` (the `finally` block): run the
rollup when this was the outermost scope with rollup enabled and a truthy
operation id, then reset each context variable that was set, restoring its
previous value.  Returns the restored context and whether a rollup was
triggered. -/
def exitOperation (ctx : OperationContext) (scope : OperationScope) :
    OperationContext × Bool :=
  let didRollup := scope.shouldRollup && scope.resolvedId != ""
  let ctx1 := { ctx with operation_id := scope.tokenOp }
  let ctx2 := match scope.tokenParent with
    | some v => { ctx1 with parent_operation_id := v }
    | none => ctx1
  let ctx3 := match scope.tokenArea with
    | some v => { ctx2 with area := v }
    | none => ctx2
  (ctx3, didRollup)

/-- Parsed timestamps of a document list, in order. -/
def parsedTimestamps (docs : List Doc) : List Int :=
  docs.filterMap (fun d => parse_timestamp d.timestamp)

def maxStep (acc : Option Int) (t : Int) : Option Int :=
  match acc with
  | none => some t
  | some m => if m < t then some t else some m

def minStep (acc : Option Int) (t : Int) : Option Int :=
  match acc with
  | none => some t
  | some m => if t < m then some t else some m

/-- Maximum parsed child timestamp of a group (the instant `_summarize_docs`
reaches in `end_time`). -/
def maxParsed (docs : List Doc) : Option Int :=
  (parsedTimestamps docs).foldl maxStep none

/-- Minimum parsed child timestamp of a group. -/
def minParsed (docs : List Doc) : Option Int :=
  (parsedTimestamps docs).foldl minStep none

/-- First truthy area of a document list (what `_summarize_docs` keeps as the
generic first-seen area). -/
def firstArea (docs : List Doc) : Option String :=
  (docs.filterMap (fun d => truthy d.area)).head?

/-- Documents whose normalized operation id is the given root: the root
operation's own entries. -/
def rootOwnDocs (docs : List Doc) (root : String) : List Doc :=
  docs.filter (fun d => normalize_operation_id d.operation_id == some root)

/-- Child log-entry document as the handler writes it: doc_type is the join
object naming the parent operation. -/
def mkChildDoc (ts msg op : String) (parent : Option String := none)
    (area : Option String := none) (lvl : String := "info") : Doc :=
  { timestamp := some ts, level := some lvl, logger_name := some "app",
    message := some msg, operation_id := some op, parent_operation_id := parent,
    area := area, doc_type := some (.joinRel "log_entry" op) }

def mkStored (i : Nat) (d : Doc) : StoredDoc :=
  ⟨"doc-" ++ toString i, d, d.operation_id⟩

/-- Five children of one operation with distinct ascending timestamps. -/
def demoStore5 : Store :=
  [mkStored 1 (mkChildDoc "2024-01-01T00:00:01Z" "msg 0" "op-tail"),
   mkStored 2 (mkChildDoc "2024-01-01T00:00:02Z" "msg 1" "op-tail"),
   mkStored 3 (mkChildDoc "2024-01-01T00:00:03Z" "msg 2" "op-tail"),
   mkStored 4 (mkChildDoc "2024-01-01T00:00:04Z" "msg 3" "op-tail"),
   mkStored 5 (mkChildDoc "2024-01-01T00:00:05Z" "msg 4" "op-tail")]

/-- Three children of one operation with levels info, error, error and
distinct ascending timestamps. -/
def demoStore3 : Store :=
  [mkStored 1 (mkChildDoc "2024-01-01T00:00:01Z" "m1" "op-1" none none "info"),
   mkStored 2 (mkChildDoc "2024-01-01T00:00:02Z" "m2" "op-1" none none "error"),
   mkStored 3 (mkChildDoc "2024-01-01T00:00:03Z" "m3" "op-1" none none "error")]

/-- One stored child of operation "op-1". -/
def demoStore1 : Store :=
  [mkStored 1 (mkChildDoc "2024-01-01T00:00:01Z" "hello world" "op-1")]

/-- The three children of `demoStore3` plus a fourth entry whose timestamp
does not parse. -/
def demoDocsBad : List Doc :=
  [mkChildDoc "2024-01-01T00:00:01Z" "m1" "op-1" none none "info",
   mkChildDoc "2024-01-01T00:00:02Z" "m2" "op-1" none none "error",
   mkChildDoc "2024-01-01T00:00:03Z" "m3" "op-1" none none "error",
   mkChildDoc "not-a-timestamp" "mbad" "op-1" none none "warning"]

/-- Scenario predicate of the nested-rollup claim: a child document either
carries operation id "inner" with parent "outer", or operation id "outer"
with no parent. -/
def innerOuterDoc (d : Doc) : Prop :=
  (normalize_operation_id d.operation_id = some "inner"
    ∧ normalize_operation_id d.parent_operation_id = some "outer")
  ∨ (normalize_operation_id d.operation_id = some "outer"
    ∧ normalize_operation_id d.parent_operation_id = none)

instance (d : Doc) : Decidable (innerOuterDoc d) := by
  unfold innerOuterDoc; infer_instance

/-- Extracts the parent-document writes from an effect list. -/
def indexWritesOf (effs : List StoreEffect) : List (String × Doc) :=
  effs.filterMap (fun e => match e with
    | StoreEffect.indexWrite i b _ => some (i, b)
    | _ => none)

/-- Two child documents of the nested-operation scenario: one belonging to
"inner" (whose parent is "outer") carrying area "jobs", and one belonging to
"outer" itself carrying area "api". -/
def demoNested : List Doc :=
  [mkChildDoc "2024-01-01T00:00:01Z" "inner msg" "inner" (some "outer") (some "jobs"),
   mkChildDoc "2024-01-01T00:00:02Z" "outer msg" "outer" none (some "api")]

/-- Descending-sorted hits of the matching part of a store. -/
def sortedDescHits (st : Store) (q : Query) : List StoredDoc :=
  (st.filter (fun sd => docMatches sd.source q)).insertionSort descByKey

/-- Pure update of the (start_time, end_time, last_message) triple performed
by one `_summarize_docs` iteration. -/
def timeUpd (acc : Option Int × Option Int × Option String) (d : Doc) :
    Option Int × Option Int × Option String :=
  match parse_timestamp d.timestamp with
  | none => acc
  | some ts =>
    let st := minStep acc.1 ts
    match acc.2.1 with
    | none => (st, some ts, d.message)
    | some m => if m < ts then (st, some ts, d.message) else (st, acc.2.1, acc.2.2)

/- Order lemmas for the (timestamp, id) sort key. -/

theorem strLt_iff (a b : String) :
    strLt a b ↔ List.Lex (fun x y : Nat => x < y) (strKey a) (strKey b) := by
  simp [strLt, strLtB]

theorem strKey_inj {a b : String} (h : strKey a = strKey b) : a = b := by
  have hinj : Function.Injective Char.toNat := by
    intro x y hxy
    exact Char.ext (UInt32.toNat.inj hxy)
  have hdata : a.data = b.data := List.map_injective_iff.mpr hinj h
  cases a; cases b
  exact congrArg String.mk hdata

theorem strLt_trans {a b c : String} (h1 : strLt a b) (h2 : strLt b c) : strLt a c := by
  rw [strLt_iff] at h1 h2 ⊢
  exact Trans.trans h1 h2

theorem strLt_asymm {a b : String} (h : strLt a b) : ¬ strLt b a := by
  rw [strLt_iff] at h ⊢
  exact asymm h

theorem strLt_trichot (a b : String) : strLt a b ∨ a = b ∨ strLt b a := by
  rcases trichotomous_of (List.Lex (fun x y : Nat => x < y)) (strKey a) (strKey b)
    with h | h | h
  · exact Or.inl ((strLt_iff a b).mpr h)
  · exact Or.inr (Or.inl (strKey_inj h))
  · exact Or.inr (Or.inr ((strLt_iff b a).mpr h))

theorem keyLt_iff (a b : SKey) :
    keyLt a b ↔ (strLt a.1 b.1 ∨ (a.1 = b.1 ∧ strLt a.2 b.2)) := by
  simp [keyLt, keyLtb, strLt]

theorem keyLtb_eq_false_iff (a b : SKey) : keyLtb a b = false ↔ ¬ keyLt a b := by
  simp [keyLt]

theorem keyLt_trans {a b c : SKey} (h1 : keyLt a b) (h2 : keyLt b c) : keyLt a c := by
  rw [keyLt_iff] at h1 h2 ⊢
  rcases h1 with h1 | ⟨h1e, h1s⟩
  · rcases h2 with h2 | ⟨h2e, _⟩
    · exact Or.inl (strLt_trans h1 h2)
    · exact Or.inl (h2e ▸ h1)
  · rcases h2 with h2 | ⟨h2e, h2s⟩
    · exact Or.inl (h1e ▸ h2)
    · exact Or.inr ⟨h1e.trans h2e, strLt_trans h1s h2s⟩

theorem keyLt_asymm {a b : SKey} (h : keyLt a b) : ¬ keyLt b a := by
  rw [keyLt_iff] at h ⊢
  rcases h with h | ⟨he, hs⟩
  · rintro (h' | ⟨h'e, _⟩)
    · exact absurd h' (strLt_asymm h)
    · exact absurd h (by rw [h'e] at h ⊢; exact fun hk => strLt_asymm hk hk)
  · rintro (h' | ⟨_, h's⟩)
    · exact absurd h' (by rw [he]; exact fun hk => strLt_asymm hk hk)
    · exact absurd h's (strLt_asymm hs)

theorem keyLt_trichot (a b : SKey) : keyLt a b ∨ a = b ∨ keyLt b a := by
  rcases strLt_trichot a.1 b.1 with h | h | h
  · exact Or.inl ((keyLt_iff a b).mpr (Or.inl h))
  · rcases strLt_trichot a.2 b.2 with h2 | h2 | h2
    · exact Or.inl ((keyLt_iff a b).mpr (Or.inr ⟨h, h2⟩))
    · exact Or.inr (Or.inl (Prod.ext h h2))
    · exact Or.inr (Or.inr ((keyLt_iff b a).mpr (Or.inr ⟨h.symm, h2⟩)))
  · exact Or.inr (Or.inr ((keyLt_iff b a).mpr (Or.inl h)))

theorem descByKey_iff (a b : StoredDoc) :
    descByKey a b ↔ ¬ keyLt (hitKey a) (hitKey b) := by
  unfold descByKey
  exact keyLtb_eq_false_iff _ _

instance : IsTotal StoredDoc descByKey :=
  ⟨fun a b => by
    rw [descByKey_iff, descByKey_iff]
    rcases keyLt_trichot (hitKey a) (hitKey b) with h | h | h
    · exact Or.inr (keyLt_asymm h)
    · exact Or.inl (h ▸ fun hk => keyLt_asymm hk hk)
    · exact Or.inl (keyLt_asymm h)⟩

instance : IsTrans StoredDoc descByKey :=
  ⟨fun a b c hab hbc => by
    rw [descByKey_iff] at hab hbc ⊢
    intro hac
    rcases keyLt_trichot (hitKey a) (hitKey b) with h | h | h
    · exact hab h
    · exact hbc (h ▸ hac)
    · exact hbc (keyLt_trans h hac)⟩

/-- Strictly-descending pairwise order follows from the sort plus distinct
sort keys. -/
theorem sortedDescHits_pairwise (st : Store) (q : Query)
    (h : (st.map hitKey).Nodup) :
    (sortedDescHits st q).Pairwise (fun a b => keyLt (hitKey b) (hitKey a)) := by
  have hsorted : (sortedDescHits st q).Pairwise descByKey :=
    List.sorted_insertionSort descByKey _
  have hsub : ((st.filter (fun sd => docMatches sd.source q)).map hitKey).Sublist
      (st.map hitKey) := (List.filter_sublist st).map hitKey
  have hnodup0 : ((st.filter (fun sd => docMatches sd.source q)).map hitKey).Nodup :=
    h.sublist hsub
  have hperm : (sortedDescHits st q).Perm (st.filter (fun sd => docMatches sd.source q)) :=
    List.perm_insertionSort descByKey _
  have hnodup : ((sortedDescHits st q).map hitKey).Nodup :=
    (hperm.map hitKey).symm.nodup_iff.mp hnodup0
  have hne : (sortedDescHits st q).Pairwise (fun a b => hitKey a ≠ hitKey b) :=
    (List.pairwise_map).mp hnodup
  refine (hsorted.and hne).imp ?_
  rintro a b ⟨hd, hne'⟩
  rw [descByKey_iff] at hd
  rcases keyLt_trichot (hitKey a) (hitKey b) with h' | h' | h'
  · exact absurd h' hd
  · exact absurd h' hne'
  · exact h'

theorem mem_of_getLast?_eq {α : Type} {l : List α} {a : α}
    (h : l.getLast? = some a) : a ∈ l := by
  rcases List.mem_getLast?_eq_getLast (l := l) (x := a) h with ⟨hne, rfl⟩
  exact List.getLast_mem hne

/-- Members of a list's take relate to its `getLast?` under a strict pairwise
order: each is either strictly before the last element or is it. -/
theorem mem_rel_getLast {α : Type} {R : α → α → Prop} :
    ∀ (l : List α) (lastE : α), l.Pairwise R → l.getLast? = some lastE →
      ∀ a ∈ l, R a lastE ∨ a = lastE := by
  intro l
  induction l with
  | nil => intro lastE _ h; simp at h
  | cons x xs ih =>
    intro lastE hp hl a ha
    cases xs with
    | nil =>
      simp at hl ha
      subst hl; subst ha; exact Or.inr rfl
    | cons y ys =>
      have hl' : (y :: ys).getLast? = some lastE := by
        simpa [List.getLast?_cons_cons] using hl
      rcases List.mem_cons.mp ha with rfl | ha'
      · have hmem : lastE ∈ y :: ys := by
          have := mem_of_getLast?_eq (l := y :: ys) (a := lastE) hl'
          exact this
        exact Or.inl ((List.pairwise_cons.mp hp).1 lastE hmem)
      · exact ih lastE (List.pairwise_cons.mp hp).2 hl' a ha'

/-- Core cursor lemma: in a strictly-descending list, resuming after the sort
key of the last element of the first `n` entries keeps exactly the entries
beyond position `n`. -/
theorem filter_after_take_eq_drop (l : List StoredDoc) (n : Nat) (lastSd : StoredDoc)
    (hp : l.Pairwise (fun a b => keyLt (hitKey b) (hitKey a)))
    (hlast : (l.take n).getLast? = some lastSd) :
    l.filter (fun sd => keyLtb (hitKey sd) (hitKey lastSd)) = l.drop n := by
  conv_lhs => rw [← List.take_append_drop n l]
  rw [List.filter_append]
  have hsplit := List.pairwise_append.mp
    (show (l.take n ++ l.drop n).Pairwise (fun a b => keyLt (hitKey b) (hitKey a)) by
      rw [List.take_append_drop]; exact hp)
  have htake : (l.take n).filter (fun sd => keyLtb (hitKey sd) (hitKey lastSd)) = [] := by
    rw [List.filter_eq_nil_iff]
    intro a ha
    have := mem_rel_getLast (l.take n) lastSd hsplit.1 hlast a ha
    rcases this with h | rfl
    · simp only [Bool.not_eq_true, keyLtb_eq_false_iff]
      exact keyLt_asymm h
    · simp only [Bool.not_eq_true, keyLtb_eq_false_iff]
      exact fun hk => keyLt_asymm hk hk
  have hdrop : (l.drop n).filter (fun sd => keyLtb (hitKey sd) (hitKey lastSd)) = l.drop n := by
    rw [List.filter_eq_self]
    intro b hb
    have hmem : lastSd ∈ l.take n := mem_of_getLast?_eq hlast
    exact hsplit.2.2 lastSd hmem b hb
  rw [htake, hdrop, List.nil_append]

/-- Companion of the cursor lemma: every entry beyond position `n` has a sort
key strictly below the cursor. -/
theorem keyLt_of_mem_drop (l : List StoredDoc) (n : Nat) (lastSd : StoredDoc)
    (hp : l.Pairwise (fun a b => keyLt (hitKey b) (hitKey a)))
    (hlast : (l.take n).getLast? = some lastSd) :
    ∀ b ∈ l.drop n, keyLt (hitKey b) (hitKey lastSd) := by
  intro b hb
  have hsplit := List.pairwise_append.mp
    (show (l.take n ++ l.drop n).Pairwise (fun a b => keyLt (hitKey b) (hitKey a)) by
      rw [List.take_append_drop]; exact hp)
  exact hsplit.2.2 lastSd (mem_of_getLast?_eq hlast) b hb

/-- C1: tail paging is claimed to yield all N documents exactly once in
ascending timestamp order, each continuation fetching forward after the
cursor.  Evaluating the code on five children with distinct ascending
timestamps t1 < ... < t5 and limit 2: repeated calls return the pages
[t4, t5], [t2, t3], [t1] — every document exactly once, each page internally
ascending, but the pages walk backwards in time, so the concatenated stream
is not in ascending timestamp order and continuation calls fetch strictly
older documents, contradicting the claim (and the repository's own
`test_tail_logs_pagination`, which asserts the ascending concatenation). -/
theorem tail_paging_walks_backwards_on_five_docs :
    ((tailPages demoStore5 2).map (fun p => p.map (fun r => r.source.message))) =
      [[some "msg 3", some "msg 4"], [some "msg 1", some "msg 2"], [some "msg 0"]]
    ∧ ((tailPages demoStore5 2).flatten.map (fun r => r.source.message)) ≠
      [some "msg 0", some "msg 1", some "msg 2", some "msg 3", some "msg 4"]
    ∧ ((tailPages demoStore5 2).flatten.map (fun r => r.source.message)).Perm
      [some "msg 0", some "msg 1", some "msg 2", some "msg 3", some "msg 4"] := by
  refine ⟨rfl, by decide, by decide⟩

/-- C2 counterexample: the claim says the query matches rolled-up parent
documents, reading an operation's content back transparently after rollup.
On a store with one child of "op-1", search returns the child; after
`rollup_operation` the store holds exactly the parent document (id "op-1",
doc_type "operation"), yet the same search returns nothing. -/
theorem search_after_rollup_drops_operation_content :
    (search_logs demoStore1 none none none none none 50).map (fun r => r.source.message)
      = [some "hello world"]
    ∧ search_logs (rollup_operation demoStore1 (some "op-1") false).2.1
        none none none none none 50 = []
    ∧ (rollup_operation demoStore1 (some "op-1") false).2.1.map (fun sd => sd.id)
      = ["op-1"]
    ∧ (rollup_operation demoStore1 (some "op-1") false).2.1.map
        (fun sd => sd.source.doc_type) = [some (DocTypeVal.tag "operation")] :=
  ⟨rfl, rfl, rfl, rfl⟩

/-- C2 (amended): the query built by `_build_log_query` matches exactly the
documents tagged as log entries (plain or join form) or carrying no doc_type
at all; rolled-up parent documents carry doc_type "operation" and never match,
for any filter combination — so after a rollup pass the operation's content is
no longer part of the search/tail entry stream. -/
theorem log_query_excludes_rolled_up_parents :
    (∀ (q a o l s : Option String) (root : String) (docs : List Doc),
        docMatches (parentDocOf root docs) (build_log_query q a o l s) = false)
    ∧ (∀ d : Doc, (d.doc_type = none ∨ d.doc_type = some (.tag "log_entry")
          ∨ (∃ p, d.doc_type = some (.joinRel "log_entry" p))) →
        docMatches d (build_log_query none none none none none) = true) := by
  constructor
  · intro q a o l s root docs
    have hc : docMatchesCount (parentDocOf root docs)
        [Query.term "doc_type" "log_entry",
         Query.boolQ [] [] [] [Query.existsQ "doc_type"] none] = 0 := rfl
    simp [build_log_query, docMatches, docMatchesAll, hc]
  · rintro d (hd | hd | ⟨p, hd⟩) <;>
      simp [build_log_query, docMatches, docMatchesAll, docMatchesAny,
        docMatchesCount, termMatches, fieldExists, truthy, normalize_level_terms,
        normalize_level, hd]

theorem log_query_excludes_rolled_up_parents_witness :
    docMatches (parentDocOf "op-1" [mkChildDoc "2024-01-01T00:00:01Z" "m1" "op-1"])
      (build_log_query none none none none none) = false
    ∧ ((mkChildDoc "2024-01-01T00:00:01Z" "m1" "op-1").doc_type = none
        ∨ (mkChildDoc "2024-01-01T00:00:01Z" "m1" "op-1").doc_type
            = some (.tag "log_entry")
        ∨ (∃ p, (mkChildDoc "2024-01-01T00:00:01Z" "m1" "op-1").doc_type
            = some (.joinRel "log_entry" p)))
    ∧ docMatches (mkChildDoc "2024-01-01T00:00:01Z" "m1" "op-1")
        (build_log_query none none none none none) = true :=
  ⟨log_query_excludes_rolled_up_parents.1 none none none none none "op-1"
      [mkChildDoc "2024-01-01T00:00:01Z" "m1" "op-1"],
   Or.inr (Or.inr ⟨"op-1", rfl⟩),
   log_query_excludes_rolled_up_parents.2 _ (Or.inr (Or.inr ⟨"op-1", rfl⟩))⟩

/-- C3 counterexample: the claim says a rolled-up parent built from N child
entries expands to exactly N normalized entries.  For a parent built from two
children, `normalize_log_entries` yields exactly one entry, and 1 is not 2. -/
theorem normalize_rolled_parent_single_entry :
    (normalize_log_entries [parentDocOf "op-1"
        [mkChildDoc "2024-01-01T00:00:01Z" "m1" "op-1",
         mkChildDoc "2024-01-01T00:00:02Z" "m2" "op-1"]] none).length = 1
    ∧ (1 : Nat) ≠ 2 :=
  ⟨rfl, by decide⟩

/-- C3 (amended): `normalize_log_entries` does not expand embedded entries:
a rolled-up parent document built from any child list yields exactly ONE
normalized entry carrying the parent's own top-level fields — the group's
timestamp, the legacy flattened message, the group area and the root
operation id — with level, logger name, source location, exception and
features all absent. -/
theorem normalize_rolled_parent_yields_one_entry (root : String) (docs : List Doc) :
    normalize_log_entries [parentDocOf root docs] none =
      [{ timestamp := (summarize_docs docs (some root)).timestamp,
         level := none,
         message := (summarize_docs docs (some root)).message,
         logger_name := none,
         area := (summarize_docs docs (some root)).area,
         operation_id := some root,
         pathname := none, lineno := none, exception := none, features := none }] := by
  rfl

/-- C9: `rollup_operation` called with an operation id that is absent, empty,
or whitespace-blank returns 0 and issues no store write and no delete, only
the optional read-view refresh; the store is unchanged. -/
theorem rollup_operation_blank_id_noop (st : Store) (opId : Option String)
    (refresh : Bool) (h : normalize_operation_id opId = none) :
    rollup_operation st opId refresh =
      (0, st, if refresh then [StoreEffect.refreshIndex] else []) := by
  unfold rollup_operation
  rw [h]

theorem rollup_operation_blank_id_noop_witness :
    normalize_operation_id (some "   ") = none
    ∧ rollup_operation demoStore3 (some "   ") true
        = (0, demoStore3, [StoreEffect.refreshIndex])
    ∧ rollup_operation demoStore3 none false = (0, demoStore3, []) :=
  ⟨rfl, rollup_operation_blank_id_noop demoStore3 (some "   ") true rfl,
   rollup_operation_blank_id_noop demoStore3 none false rfl⟩

/-- C4: rolling up the three children of "op-1" with levels info, error,
error and timestamps t1 < t2 < t3 folds 3 documents, writes the parent keyed
"op-1" with counts_by_level info 1, error 2, error_count 2, start_time t1,
end_time t3 and last_message the t3 entry's message, and leaves zero child
documents of "op-1" in the store; a fourth entry with an unparseable
timestamp is still tallied in the level counts (warning 1) but excluded from
the min/max and from last_message. -/
theorem rollup_op1_aggregation :
    (rollup_operation demoStore3 (some "op-1") false).1 = 3
    ∧ ((rollup_operation demoStore3 (some "op-1") false).2.1.filter
        (fun sd => docMatches sd.source (childDeleteQuery ["op-1"]))) = []
    ∧ (rollup_operation demoStore3 (some "op-1") false).2.1.map
        (fun sd => sd.id) = ["op-1"]
    ∧ (rollup_operation demoStore3 (some "op-1") false).2.1.map
        (fun sd => sd.source.counts_by_level) = [some [("info", 1), ("error", 2)]]
    ∧ (rollup_operation demoStore3 (some "op-1") false).2.1.map
        (fun sd => sd.source.error_count) = [some 2]
    ∧ (rollup_operation demoStore3 (some "op-1") false).2.1.map
        (fun sd => sd.source.start_time) = [some "2024-01-01T00:00:01Z"]
    ∧ (rollup_operation demoStore3 (some "op-1") false).2.1.map
        (fun sd => sd.source.end_time) = [some "2024-01-01T00:00:03Z"]
    ∧ (rollup_operation demoStore3 (some "op-1") false).2.1.map
        (fun sd => sd.source.last_message) = [some "m3"]
    ∧ parse_timestamp (some "not-a-timestamp") = none
    ∧ (summarize_docs demoDocsBad (some "op-1")).counts_by_level
        = [("info", 1), ("error", 2), ("warning", 1)]
    ∧ (summarize_docs demoDocsBad (some "op-1")).error_count = 2
    ∧ (summarize_docs demoDocsBad (some "op-1")).start_time
        = some "2024-01-01T00:00:01Z"
    ∧ (summarize_docs demoDocsBad (some "op-1")).end_time
        = some "2024-01-01T00:00:03Z"
    ∧ (summarize_docs demoDocsBad (some "op-1")).last_message = some "m3" :=
  ⟨rfl, rfl, rfl, rfl, rfl, rfl, rfl, rfl, rfl, rfl, rfl, rfl, rfl, rfl⟩

/-- C8: entering operation A then nested operation B and exiting B restores
the ambient context to exactly A's (operation_id, parent_operation_id, area)
triple; exiting A afterwards restores the exact pre-A triple.  The nested
scope never triggers a rollup on exit; the outer scope triggers one exactly
when rollup is enabled, no operation was active when it was entered, and its
operation id is non-empty. -/
theorem operation_context_nesting_restore (ctx0 : OperationContext)
    (a b : String) (areaA areaB : Option String) (rA rB : Option Bool)
    (rdef : Bool) (fa fb : String) :
    (exitOperation
        (enterOperation
          (enterOperation ctx0 (some a) fa areaA rA rdef).1
          (some b) fb areaB rB rdef).1
        (enterOperation
          (enterOperation ctx0 (some a) fa areaA rA rdef).1
          (some b) fb areaB rB rdef).2).1
      = (enterOperation ctx0 (some a) fa areaA rA rdef).1
    ∧ (exitOperation
        (exitOperation
          (enterOperation
            (enterOperation ctx0 (some a) fa areaA rA rdef).1
            (some b) fb areaB rB rdef).1
          (enterOperation
            (enterOperation ctx0 (some a) fa areaA rA rdef).1
            (some b) fb areaB rB rdef).2).1
        (enterOperation ctx0 (some a) fa areaA rA rdef).2).1
      = ctx0
    ∧ (exitOperation
        (enterOperation
          (enterOperation ctx0 (some a) fa areaA rA rdef).1
          (some b) fb areaB rB rdef).1
        (enterOperation
          (enterOperation ctx0 (some a) fa areaA rA rdef).1
          (some b) fb areaB rB rdef).2).2
      = false
    ∧ (exitOperation
        (exitOperation
          (enterOperation
            (enterOperation ctx0 (some a) fa areaA rA rdef).1
            (some b) fb areaB rB rdef).1
          (enterOperation
            (enterOperation ctx0 (some a) fa areaA rA rdef).1
            (some b) fb areaB rB rdef).2).1
        (enterOperation ctx0 (some a) fa areaA rA rdef).2).2
      = ((rA.getD rdef) && ctx0.operation_id.isNone && (a != "")) := by
  rcases ctx0 with ⟨op0, par0, ar0⟩
  cases op0 <;> cases areaA <;> cases areaB <;>
    simp [enterOperation, exitOperation]

/-- While the breaker is open and before the deadline, `emit` is a no-op. -/
theorem emit_skip (s : BreakerState) (t : Int) (hasClient w : Bool)
    (hc : s.circuitOpen = true) (ht : t < s.circuitOpenUntil) :
    emit s t hasClient w = (s, ⟨false, false, false⟩) := by
  unfold emit
  rw [if_pos]
  exact ⟨by rw [hc], ht⟩

theorem emitFold_skip (s : BreakerState) (outs : List EmitResult) (p : Int × Bool)
    (hc : s.circuitOpen = true) (hp : p.1 < s.circuitOpenUntil) :
    emitFold (s, outs) p = (s, outs ++ [⟨false, false, false⟩]) := by
  unfold emitFold
  rw [emit_skip s p.1 true p.2 hc hp]

/-- Folding emits that all land inside the open window leaves the state
untouched and produces silent no-op results. -/
theorem foldl_emits_open_window (s : BreakerState) (hc : s.circuitOpen = true) :
    ∀ (mids : List (Int × Bool)) (outs : List EmitResult),
      (∀ p ∈ mids, p.1 < s.circuitOpenUntil) →
      mids.foldl emitFold (s, outs)
        = (s, outs ++ mids.map (fun _ => ⟨false, false, false⟩)) := by
  intro mids
  induction mids with
  | nil => intro outs _; simp
  | cons p rest ih =>
    intro outs hall
    have hp := hall p (List.mem_cons_self p rest)
    have hrest : ∀ q ∈ rest, q.1 < s.circuitOpenUntil :=
      fun q hq => hall q (List.mem_cons_of_mem p hq)
    rw [List.foldl_cons, emitFold_skip s outs p hc hp, ih _ hrest]
    simp

/-- C7: starting from a closed breaker, a failed write at time t0 opens it;
every subsequent emit before t0 + 60s performs no write attempt and prints
nothing (the store call count stays at 1 through the window); the first emit
at or after the deadline attempts a write again, and when it succeeds the
breaker closes and the restored notice is printed — exactly once over the
whole call sequence. -/
theorem circuit_breaker_cooldown (s0 : BreakerState) (t0 tN : Int)
    (mids : List (Int × Bool))
    (h0 : s0.circuitOpen = false)
    (hw : ∀ p ∈ mids, p.1 < t0 + circuitBreakerDuration)
    (hN : t0 + circuitBreakerDuration ≤ tN) :
    (runEmits s0 ((t0, false) :: mids ++ [(tN, true)])).2
      = ⟨true, false, decide (errorPrintInterval < t0 - s0.lastErrorPrinted)⟩
        :: mids.map (fun _ => ⟨false, false, false⟩) ++ [⟨true, true, false⟩]
    ∧ (runEmits s0 ((t0, false) :: mids ++ [(tN, true)])).1.circuitOpen = false
    ∧ (((runEmits s0 ((t0, false) :: mids ++ [(tN, true)])).2.filter
        (fun o => o.printedRestored)).length = 1)
    ∧ ((((runEmits s0 ((t0, false) :: mids ++ [(tN, true)])).2.take
        (1 + mids.length)).filter (fun o => o.attempted)).length = 1) := by
  have hcond0 : ¬(s0.circuitOpen = true ∧ t0 < s0.circuitOpenUntil) := by
    rintro ⟨hopen, -⟩
    rw [h0] at hopen
    exact Bool.false_ne_true hopen
  have hfail : emit s0 t0 true false
      = ({ circuitOpen := true,
           circuitOpenUntil := t0 + circuitBreakerDuration,
           lastErrorPrinted :=
             if decide (errorPrintInterval < t0 - s0.lastErrorPrinted) = true
             then t0 else s0.lastErrorPrinted },
         ⟨true, false, decide (errorPrintInterval < t0 - s0.lastErrorPrinted)⟩) := by
    unfold emit
    rw [if_neg hcond0, if_pos rfl, if_neg (by simp)]
  set s1 : BreakerState :=
    { circuitOpen := true,
      circuitOpenUntil := t0 + circuitBreakerDuration,
      lastErrorPrinted :=
        if decide (errorPrintInterval < t0 - s0.lastErrorPrinted) = true
        then t0 else s0.lastErrorPrinted } with hs1
  have hswin : ∀ p ∈ mids, p.1 < s1.circuitOpenUntil := by
    intro p hp
    rw [hs1]
    exact hw p hp
  have hcondN : ¬(s1.circuitOpen = true ∧ tN < s1.circuitOpenUntil) := by
    rintro ⟨-, hlt⟩
    rw [hs1] at hlt
    exact absurd hlt (not_lt.mpr hN)
  have hlast : emit s1 tN true true
      = ({ s1 with circuitOpen := false }, ⟨true, true, false⟩) := by
    unfold emit
    rw [if_neg hcondN, if_pos rfl, if_pos rfl]
  have hrun : runEmits s0 ((t0, false) :: mids ++ [(tN, true)])
      = ({ s1 with circuitOpen := false },
         ⟨true, false, decide (errorPrintInterval < t0 - s0.lastErrorPrinted)⟩
           :: mids.map (fun _ => ⟨false, false, false⟩) ++ [⟨true, true, false⟩]) := by
    have h1 : emitFold (s0, []) (t0, false) =
        (s1, [⟨true, false, decide (errorPrintInterval < t0 - s0.lastErrorPrinted)⟩]) := by
      unfold emitFold
      rw [hfail]
      rfl
    have h2 : emitFold (s1,
        ⟨true, false, decide (errorPrintInterval < t0 - s0.lastErrorPrinted)⟩
          :: mids.map (fun _ => ⟨false, false, false⟩)) (tN, true)
        = ({ s1 with circuitOpen := false },
           ⟨true, false, decide (errorPrintInterval < t0 - s0.lastErrorPrinted)⟩
             :: mids.map (fun _ => ⟨false, false, false⟩) ++ [⟨true, true, false⟩]) := by
      unfold emitFold
      rw [hlast]
    unfold runEmits
    simp only [List.foldl_cons, List.foldl_append, List.foldl_nil]
    rw [h1]
    rw [foldl_emits_open_window s1 rfl mids _ hswin]
    simp only [List.singleton_append]
    rw [h2]
  have hmapR : (mids.map (fun _ => (⟨false, false, false⟩ : EmitResult))).filter
      (fun o => o.printedRestored) = [] := by
    induction mids with
    | nil => rfl
    | cons q qs ihq => simpa using ihq
  have hmapA : (mids.map (fun _ => (⟨false, false, false⟩ : EmitResult))).filter
      (fun o => o.attempted) = [] := by
    induction mids with
    | nil => rfl
    | cons q qs ihq => simpa using ihq
  refine ⟨by rw [hrun], by rw [hrun], ?_, ?_⟩
  · rw [hrun]
    simp [List.filter_append, hmapR]
  · rw [hrun]
    show (List.filter (fun o => o.attempted)
        (List.take (1 + mids.length)
          (EmitResult.mk true false
              (decide (errorPrintInterval < t0 - s0.lastErrorPrinted))
            :: (mids.map (fun _ => ⟨false, false, false⟩)
              ++ [EmitResult.mk true true false])))).length = 1
    rw [Nat.add_comm 1 mids.length, List.take_succ_cons,
      List.take_append_of_le_length
        (show mids.length ≤ (mids.map
          (fun _ => (⟨false, false, false⟩ : EmitResult))).length by simp),
      List.take_of_length_le
        (show (mids.map
          (fun _ => (⟨false, false, false⟩ : EmitResult))).length ≤ mids.length by simp)]
    simp [hmapA]

theorem stepLevel_time_fields (s : SummState) (d : Doc) :
    (stepLevel s d).start_time = s.start_time
    ∧ (stepLevel s d).end_time = s.end_time
    ∧ (stepLevel s d).last_message = s.last_message := by
  rcases s with ⟨cs, ec, st0, et0, lm, ar, po, ra, ls⟩
  unfold stepLevel
  (repeat' split) <;> exact ⟨rfl, rfl, rfl⟩

theorem stepArea_time_fields (s : SummState) (d : Doc) :
    (stepArea s d).start_time = s.start_time
    ∧ (stepArea s d).end_time = s.end_time
    ∧ (stepArea s d).last_message = s.last_message := by
  rcases s with ⟨cs, ec, st0, et0, lm, ar, po, ra, ls⟩
  unfold stepArea
  (repeat' split) <;> exact ⟨rfl, rfl, rfl⟩

theorem stepRoot_time_fields (root : Option String) (s : SummState) (d : Doc) :
    (stepRoot root s d).start_time = s.start_time
    ∧ (stepRoot root s d).end_time = s.end_time
    ∧ (stepRoot root s d).last_message = s.last_message := by
  rcases s with ⟨cs, ec, st0, et0, lm, ar, po, ra, ls⟩
  unfold stepRoot
  (repeat' split) <;> refine ⟨?_, ?_, ?_⟩ <;> simp [apply_ite]

theorem stepLines_time_fields (s : SummState) (d : Doc) :
    (stepLines s d).start_time = s.start_time
    ∧ (stepLines s d).end_time = s.end_time
    ∧ (stepLines s d).last_message = s.last_message :=
  ⟨rfl, rfl, rfl⟩

theorem stepTime_time_fields (s : SummState) (d : Doc) :
    ((stepTime s d).start_time, (stepTime s d).end_time, (stepTime s d).last_message)
      = timeUpd (s.start_time, s.end_time, s.last_message) d := by
  rcases s with ⟨cs, ec, st0, et0, lm, ar, po, ra, ls⟩
  unfold stepTime timeUpd minStep
  cases hp : parse_timestamp d.timestamp <;>
    cases st0 <;> cases et0 <;> dsimp only <;> (repeat' split) <;> simp_all <;>
    (exfalso; omega)

theorem summStep_time_fields (root : Option String) (s : SummState) (d : Doc) :
    ((summStep root s d).start_time, (summStep root s d).end_time,
        (summStep root s d).last_message)
      = timeUpd (s.start_time, s.end_time, s.last_message) d := by
  unfold summStep
  rw [(stepLines_time_fields _ d).1, (stepLines_time_fields _ d).2.1,
    (stepLines_time_fields _ d).2.2]
  rw [stepTime_time_fields _ d]
  rw [(stepRoot_time_fields root _ d).1, (stepRoot_time_fields root _ d).2.1,
    (stepRoot_time_fields root _ d).2.2]
  rw [(stepArea_time_fields _ d).1, (stepArea_time_fields _ d).2.1,
    (stepArea_time_fields _ d).2.2]
  rw [(stepLevel_time_fields _ d).1, (stepLevel_time_fields _ d).2.1,
    (stepLevel_time_fields _ d).2.2]

theorem foldl_summStep_time (root : Option String) :
    ∀ (docs : List Doc) (s : SummState),
      ((docs.foldl (summStep root) s).start_time,
       (docs.foldl (summStep root) s).end_time,
       (docs.foldl (summStep root) s).last_message)
        = docs.foldl timeUpd (s.start_time, s.end_time, s.last_message) := by
  intro docs
  induction docs with
  | nil => intro s; rfl
  | cons d rest ih =>
    intro s
    rw [List.foldl_cons, List.foldl_cons, ih (summStep root s d),
      summStep_time_fields root s d]

theorem foldl_timeUpd_end : ∀ (docs : List Doc)
    (acc : Option Int × Option Int × Option String),
    (docs.foldl timeUpd acc).2.1 = (parsedTimestamps docs).foldl maxStep acc.2.1 := by
  intro docs
  induction docs with
  | nil => intro acc; rfl
  | cons d rest ih =>
    intro acc
    rw [List.foldl_cons]
    cases hp : parse_timestamp d.timestamp with
    | none =>
      have hskip : timeUpd acc d = acc := by unfold timeUpd; rw [hp]
      have hlist : parsedTimestamps (d :: rest) = parsedTimestamps rest := by
        unfold parsedTimestamps
        simp [List.filterMap_cons, hp]
      rw [hskip, ih acc, hlist]
    | some ts =>
      have hstep : (timeUpd acc d).2.1 = maxStep acc.2.1 ts := by
        unfold timeUpd maxStep
        rw [hp]
        rcases acc with ⟨a1, a2, a3⟩
        cases a2 <;> dsimp only <;> (repeat' split) <;> simp_all
      have hlist : parsedTimestamps (d :: rest) = ts :: parsedTimestamps rest := by
        unfold parsedTimestamps
        simp [List.filterMap_cons, hp]
      rw [ih (timeUpd acc d), hstep, hlist, List.foldl_cons]

theorem foldl_timeUpd_start : ∀ (docs : List Doc)
    (acc : Option Int × Option Int × Option String),
    (docs.foldl timeUpd acc).1 = (parsedTimestamps docs).foldl minStep acc.1 := by
  intro docs
  induction docs with
  | nil => intro acc; rfl
  | cons d rest ih =>
    intro acc
    rw [List.foldl_cons]
    cases hp : parse_timestamp d.timestamp with
    | none =>
      have hskip : timeUpd acc d = acc := by unfold timeUpd; rw [hp]
      have hlist : parsedTimestamps (d :: rest) = parsedTimestamps rest := by
        unfold parsedTimestamps
        simp [List.filterMap_cons, hp]
      rw [hskip, ih acc, hlist]
    | some ts =>
      have hfst : (timeUpd acc d).1 = minStep acc.1 ts := by
        unfold timeUpd minStep
        rw [hp]
        rcases acc with ⟨a1, a2, a3⟩
        cases a2 <;> dsimp only <;> (repeat' split) <;> simp_all
      have hlist : parsedTimestamps (d :: rest) = ts :: parsedTimestamps rest := by
        unfold parsedTimestamps
        simp [List.filterMap_cons, hp]
      rw [ih (timeUpd acc d), hfst, hlist, List.foldl_cons]

theorem summ_end_time_eq_maxParsed (root : Option String) (docs : List Doc) :
    (docs.foldl (summStep root) {}).end_time = maxParsed docs := by
  have h := congrArg (fun t => t.2.1) (foldl_summStep_time root docs {})
  dsimp at h
  rw [h, foldl_timeUpd_end docs (none, none, none)]
  rfl

theorem summ_start_time_eq_minParsed (root : Option String) (docs : List Doc) :
    (docs.foldl (summStep root) {}).start_time = minParsed docs := by
  have h := congrArg (fun t => t.1) (foldl_summStep_time root docs {})
  dsimp at h
  rw [h, foldl_timeUpd_start docs (none, none, none)]
  rfl

theorem foldl_maxStep_some (l : List Int) : ∀ (m : Int),
    ∃ M, l.foldl maxStep (some m) = some M ∧ (M = m ∨ M ∈ l)
      ∧ m ≤ M ∧ ∀ t ∈ l, t ≤ M := by
  induction l with
  | nil =>
    intro m
    exact ⟨m, rfl, Or.inl rfl, le_refl m, by simp⟩
  | cons x xs ih =>
    intro m
    have hstep : maxStep (some m) x = some (if m < x then x else m) := by
      by_cases hmx : m < x <;> simp [maxStep, hmx]
    rcases ih (if m < x then x else m) with ⟨M, hM, hmem, hle, hall⟩
    have hmle : m ≤ (if m < x then x else m) := by
      by_cases hmx : m < x
      · rw [if_pos hmx]; exact le_of_lt hmx
      · rw [if_neg hmx]
    have hxle : x ≤ (if m < x then x else m) := by
      by_cases hmx : m < x
      · rw [if_pos hmx]
      · rw [if_neg hmx]; exact le_of_not_lt hmx
    refine ⟨M, by rw [List.foldl_cons, hstep]; exact hM, ?_, le_trans hmle hle, ?_⟩
    · rcases hmem with h | h
      · by_cases hmx : m < x
        · rw [if_pos hmx] at h
          exact Or.inr (h ▸ List.mem_cons_self x xs)
        · rw [if_neg hmx] at h
          exact Or.inl h
      · exact Or.inr (List.mem_cons_of_mem x h)
    · intro t ht
      rcases List.mem_cons.mp ht with h | ht'
      · rw [h]
        exact le_trans hxle hle
      · exact hall t ht'

theorem maxParsed_spec (docs : List Doc) :
    (maxParsed docs = none → parsedTimestamps docs = [])
    ∧ ∀ M, maxParsed docs = some M →
        M ∈ parsedTimestamps docs ∧ ∀ t ∈ parsedTimestamps docs, t ≤ M := by
  unfold maxParsed
  cases hl : parsedTimestamps docs with
  | nil => exact ⟨fun _ => rfl, fun M hM => by simp at hM⟩
  | cons x xs =>
    rcases foldl_maxStep_some xs x with ⟨M, hM, hmem, hle, hall⟩
    have hfold : (x :: xs).foldl maxStep none = some M := by
      rw [List.foldl_cons]; exact hM
    constructor
    · intro hnone
      rw [hfold] at hnone
      exact absurd hnone (by simp)
    · intro M' hM'
      rw [hfold] at hM'
      have : M = M' := by injection hM'
      subst this
      refine ⟨?_, ?_⟩
      · rcases hmem with h | h
        · rw [h]
          exact List.mem_cons_self x xs
        · exact List.mem_cons_of_mem x h
      · intro t ht
        rcases List.mem_cons.mp ht with h | ht'
        · rw [h]
          exact hle
        · exact hall t ht'

/-- C10: for every non-empty group, the first effect of `_rollup_group` is the
parent write keyed by the root id, and the written document's top-level
`timestamp` is the ISO rendering of the group's end time (the maximum parsed
child timestamp), falling back to the start time when no end time exists, and
absent when no child timestamp parses at all. -/
theorem rollup_parent_timestamp_is_end_time (st : Store) (root : String)
    (docs : List Doc) (ids : List String) (hne : docs ≠ []) :
    (rollup_group st root docs ids).2.2.head?
      = some (StoreEffect.indexWrite root (parentDocOf root docs) (some root))
    ∧ (parentDocOf root docs).timestamp
      = to_iso ((maxParsed docs) <|> (minParsed docs))
    ∧ (maxParsed docs = none → (parentDocOf root docs).timestamp = none)
    ∧ (∀ M, maxParsed docs = some M →
        M ∈ parsedTimestamps docs ∧ ∀ t ∈ parsedTimestamps docs, t ≤ M) := by
  have htimestamp : (parentDocOf root docs).timestamp
      = to_iso ((maxParsed docs) <|> (minParsed docs)) := by
    show (summarize_docs docs (some root)).timestamp = _
    unfold summarize_docs summFinish
    dsimp only
    rw [summ_end_time_eq_maxParsed (some root) docs,
      summ_start_time_eq_minParsed (some root) docs]
  refine ⟨?_, htimestamp, ?_, (maxParsed_spec docs).2⟩
  · unfold rollup_group
    rw [if_neg (by simp [hne])]
    dsimp only
    split <;> rfl
  · intro hnone
    have hempty := (maxParsed_spec docs).1 hnone
    have hmin : minParsed docs = none := by
      unfold minParsed
      rw [hempty]
      rfl
    rw [htimestamp, hnone, hmin]
    rfl

theorem rollup_parent_timestamp_is_end_time_witness :
    ([mkChildDoc "2024-01-01T00:00:01Z" "m1" "op-1"] ≠ ([] : List Doc))
    ∧ ((rollup_group demoStore1 "op-1"
          [mkChildDoc "2024-01-01T00:00:01Z" "m1" "op-1"] ["op-1"]).2.2.head?
        = some (StoreEffect.indexWrite "op-1"
            (parentDocOf "op-1" [mkChildDoc "2024-01-01T00:00:01Z" "m1" "op-1"])
            (some "op-1"))
      ∧ (parentDocOf "op-1" [mkChildDoc "2024-01-01T00:00:01Z" "m1" "op-1"]).timestamp
        = to_iso ((maxParsed [mkChildDoc "2024-01-01T00:00:01Z" "m1" "op-1"])
            <|> (minParsed [mkChildDoc "2024-01-01T00:00:01Z" "m1" "op-1"]))
      ∧ (maxParsed [mkChildDoc "2024-01-01T00:00:01Z" "m1" "op-1"] = none →
          (parentDocOf "op-1" [mkChildDoc "2024-01-01T00:00:01Z" "m1" "op-1"]).timestamp
            = none)
      ∧ (∀ M, maxParsed [mkChildDoc "2024-01-01T00:00:01Z" "m1" "op-1"] = some M →
          M ∈ parsedTimestamps [mkChildDoc "2024-01-01T00:00:01Z" "m1" "op-1"]
          ∧ ∀ t ∈ parsedTimestamps [mkChildDoc "2024-01-01T00:00:01Z" "m1" "op-1"],
              t ≤ M)) :=
  ⟨by simp,
   rollup_parent_timestamp_is_end_time demoStore1 "op-1"
     [mkChildDoc "2024-01-01T00:00:01Z" "m1" "op-1"] ["op-1"] (by simp)⟩

theorem circuit_breaker_cooldown_witness :
    (⟨false, 0, -100⟩ : BreakerState).circuitOpen = false
    ∧ (∀ p ∈ [((10 : Int), true), (59, false)], p.1 < 0 + circuitBreakerDuration)
    ∧ (0 : Int) + circuitBreakerDuration ≤ 60
    ∧ (runEmits ⟨false, 0, -100⟩ ((0, false) :: [((10 : Int), true), (59, false)]
        ++ [(60, true)])).2
      = [⟨true, false, true⟩, ⟨false, false, false⟩, ⟨false, false, false⟩,
         ⟨true, true, false⟩] :=
  ⟨rfl, by decide, by decide,
   by
    have h := (circuit_breaker_cooldown ⟨false, 0, -100⟩ 0 60
      [((10 : Int), true), (59, false)] rfl (by decide) (by decide)).1
    rw [h]
    decide⟩

/-- A tail call whose descending fetch is nonempty returns the reversed page
and the sort key of the fetch's LAST element (the oldest of the page). -/
theorem tail_logs_getLast_eq (st : Store) (qv opv av lv sv : Option String)
    (K : Nat) (sa : Option SKey) (lastR : ResultDoc)
    (h : (searchStore st (build_log_query qv av opv lv sv) true K sa).getLast?
          = some lastR) :
    tail_logs st qv opv av lv sv K sa =
      ((searchStore st (build_log_query qv av opv lv sv) true K sa).reverse,
       some lastR.sort) := by
  simp only [tail_logs]
  rw [h]

/-- C6 counterexample: with five stored documents and limit 2, the bootstrap
call returns [msg 3, msg 4] in ascending order as claimed, but the returned
cursor is the sort key of "msg 3"'s document — the OLDEST entry of the page,
its FIRST element after reversal — not the sort key of the now-last (most
recent) entry; and the continuation call returns the nonempty page
[msg 1, msg 2] in which no document's (timestamp, id) key is strictly
greater than the cursor (each is strictly smaller). -/
theorem tail_cursor_oldest_on_five_docs :
    (tail_logs demoStore5 none none none none none 2 none).2
      = some ("2024-01-01T00:00:04Z", "doc-4")
    ∧ (tail_logs demoStore5 none none none none none 2 none).1.getLast?.map
        (fun r => r.sort)
      = some ("2024-01-01T00:00:05Z", "doc-5")
    ∧ (tail_logs demoStore5 none none none none none 2 none).2
      ≠ (tail_logs demoStore5 none none none none none 2 none).1.getLast?.map
          (fun r => r.sort)
    ∧ (tail_logs demoStore5 none none none none none 2
        (some (("2024-01-01T00:00:04Z", "doc-4") : SKey))).1.map
          (fun r => r.source.message)
      = [some "msg 1", some "msg 2"]
    ∧ ∀ d ∈ (tail_logs demoStore5 none none none none none 2
        (some (("2024-01-01T00:00:04Z", "doc-4") : SKey))).1,
        keyLtb ("2024-01-01T00:00:04Z", "doc-4") d.sort = false := by
  refine ⟨rfl, rfl, by decide, rfl, by decide⟩

/-- C6 (amended): on the bootstrap tail call (no cursor, limit K) over more
than K matching documents with distinct sort keys, the K most recent
documents are returned in ascending chronological order — but the returned
cursor is the sort key of the OLDEST entry of that page (its first element
after reversal, not its last), and the continuation call using that cursor
returns the next-OLDER block of documents: every document of the second page
has a (timestamp, id) sort key strictly SMALLER than the cursor. -/
theorem tail_bootstrap_then_resume_backwards (st : Store)
    (qv opv av lv sv : Option String) (K : Nat)
    (hK : 0 < K) (hnodup : (st.map hitKey).Nodup)
    (hlen : K < (sortedDescHits st (build_log_query qv av opv lv sv)).length) :
    ∃ cursor : SKey,
      tail_logs st qv opv av lv sv K none =
        ((((sortedDescHits st (build_log_query qv av opv lv sv)).take K).map
            toResult).reverse,
         some cursor)
      ∧ ((tail_logs st qv opv av lv sv K none).1.head?.map (fun r => r.sort))
          = some cursor
      ∧ (tail_logs st qv opv av lv sv K (some cursor)).1 =
          ((((sortedDescHits st (build_log_query qv av opv lv sv)).drop K).take K).map
            toResult).reverse
      ∧ ∀ d ∈ (tail_logs st qv opv av lv sv K (some cursor)).1,
          keyLt d.sort cursor := by
  set q := build_log_query qv av opv lv sv with hq
  set L := sortedDescHits st q with hLdef
  have hpair : L.Pairwise (fun a b => keyLt (hitKey b) (hitKey a)) :=
    sortedDescHits_pairwise st q hnodup
  have htklen : (L.take K).length = K := by
    rw [List.length_take]; omega
  have htkne : L.take K ≠ [] := by
    intro h
    rw [h] at htklen
    simp at htklen
    omega
  obtain ⟨lastSd, hlast⟩ : ∃ x, (L.take K).getLast? = some x := by
    cases h : (L.take K).getLast? with
    | none => exact absurd (List.getLast?_eq_none_iff.mp h) htkne
    | some x => exact ⟨x, rfl⟩
  have hdocs1 : searchStore st q true K none = (L.take K).map toResult := rfl
  have hgl1 : ((L.take K).map toResult).getLast? = some (toResult lastSd) := by
    rw [List.getLast?_map, hlast]
    rfl
  have h1 : tail_logs st qv opv av lv sv K none =
      (((L.take K).map toResult).reverse, some (hitKey lastSd)) := by
    have he := tail_logs_getLast_eq st qv opv av lv sv K none (toResult lastSd)
      (by rw [← hq, hdocs1]; exact hgl1)
    rw [he, ← hq, hdocs1]
    rfl
  have hdocs2 : searchStore st q true K (some (hitKey lastSd)) =
      ((L.drop K).take K).map toResult := by
    show (((L.filter (fun sd => keyLtb (hitKey sd) (hitKey lastSd))).take K).map
        toResult) = ((L.drop K).take K).map toResult
    rw [filter_after_take_eq_drop L K lastSd hpair hlast]
  have hd2ne : (L.drop K).take K ≠ [] := by
    intro h
    have hlen2 := congrArg List.length h
    simp only [List.length_take, List.length_drop, List.length_nil] at hlen2
    omega
  obtain ⟨lastSd2, hlast2⟩ : ∃ x, ((L.drop K).take K).getLast? = some x := by
    cases h : ((L.drop K).take K).getLast? with
    | none => exact absurd (List.getLast?_eq_none_iff.mp h) hd2ne
    | some x => exact ⟨x, rfl⟩
  have hgl2 : (((L.drop K).take K).map toResult).getLast? = some (toResult lastSd2) := by
    rw [List.getLast?_map, hlast2]
    rfl
  have h2 : tail_logs st qv opv av lv sv K (some (hitKey lastSd)) =
      ((((L.drop K).take K).map toResult).reverse, some (hitKey lastSd2)) := by
    have he := tail_logs_getLast_eq st qv opv av lv sv K (some (hitKey lastSd))
      (toResult lastSd2) (by rw [← hq, hdocs2]; exact hgl2)
    rw [he, ← hq, hdocs2]
    rfl
  refine ⟨hitKey lastSd, h1, ?_, ?_, ?_⟩
  · rw [h1]
    show (((L.take K).map toResult).reverse.head?.map (fun r => r.sort))
        = some (hitKey lastSd)
    rw [List.head?_reverse, hgl1]
    rfl
  · rw [h2]
  · intro d hd
    rw [h2] at hd
    have hd2 : d ∈ (((L.drop K).take K).map toResult).reverse := hd
    rw [List.mem_reverse] at hd2
    rcases List.mem_map.mp hd2 with ⟨b, hb, rfl⟩
    exact keyLt_of_mem_drop L K lastSd hpair hlast b (List.take_subset K (L.drop K) hb)

/-- Closed instance of the amended C6 theorem on the five-document store with
limit 2, every hypothesis discharged by evaluation. -/
theorem tail_bootstrap_then_resume_backwards_witness :
    0 < 2
    ∧ (demoStore5.map hitKey).Nodup
    ∧ 2 < (sortedDescHits demoStore5 (build_log_query none none none none none)).length
    ∧ ∃ cursor : SKey,
      tail_logs demoStore5 none none none none none 2 none =
        ((((sortedDescHits demoStore5
              (build_log_query none none none none none)).take 2).map
            toResult).reverse,
         some cursor)
      ∧ ((tail_logs demoStore5 none none none none none 2 none).1.head?.map
          (fun r => r.sort)) = some cursor
      ∧ (tail_logs demoStore5 none none none none none 2 (some cursor)).1 =
          ((((sortedDescHits demoStore5
                (build_log_query none none none none none)).drop 2).take 2).map
            toResult).reverse
      ∧ ∀ d ∈ (tail_logs demoStore5 none none none none none 2 (some cursor)).1,
          keyLt d.sort cursor :=
  ⟨by decide, by decide, by decide,
   tail_bootstrap_then_resume_backwards demoStore5 none none none none none 2
     (by decide) (by decide) (by decide)⟩

/- Area-precedence machinery for the nested-rollup claim. -/

theorem truthy_ne_empty {o : Option String} {a : String}
    (h : truthy o = some a) : a ≠ "" := by
  intro ha
  subst ha
  unfold truthy at h
  split at h
  · split at h
    · cases h
    · simp_all
  · cases h

theorem option_orElse_assoc (a b c : Option String) :
    ((a <|> b) <|> c) = (a <|> (b <|> c)) := by
  cases a <;> rfl

theorem option_none_orElse (a : Option String) : ((none : Option String) <|> a) = a := by
  cases a <;> rfl

theorem firstArea_cons (d : Doc) (ds : List Doc) :
    firstArea (d :: ds) = (truthy d.area <|> firstArea ds) := by
  unfold firstArea
  rw [List.filterMap_cons]
  cases h : truthy d.area with
  | none => rfl
  | some a => rfl

theorem firstArea_ne_empty {l : List Doc} {a : String}
    (h : firstArea l = some a) : a ≠ "" := by
  unfold firstArea at h
  have hmem : a ∈ l.filterMap (fun d => truthy d.area) :=
    List.mem_of_mem_head? (by simp [h])
  rcases List.mem_filterMap.mp hmem with ⟨d, _, hd⟩
  exact truthy_ne_empty hd

theorem rootOwnDocs_cons (d : Doc) (ds : List Doc) (root : String) :
    rootOwnDocs (d :: ds) root =
      if normalize_operation_id d.operation_id = some root
      then d :: rootOwnDocs ds root else rootOwnDocs ds root := by
  unfold rootOwnDocs
  rw [List.filter_cons]
  by_cases h : normalize_operation_id d.operation_id = some root
  · rw [if_pos h, if_pos (by simp [h])]
  · rw [if_neg h, if_neg (by simp [h])]

theorem stepLevel_group_fields (s : SummState) (d : Doc) :
    (stepLevel s d).area = s.area ∧ (stepLevel s d).root_area = s.root_area := by
  rcases s with ⟨cs, ec, st0, et0, lm, ar, po, ra, ls⟩
  unfold stepLevel
  (repeat' split) <;> exact ⟨rfl, rfl⟩

theorem stepTime_group_fields (s : SummState) (d : Doc) :
    (stepTime s d).area = s.area ∧ (stepTime s d).root_area = s.root_area := by
  rcases s with ⟨cs, ec, st0, et0, lm, ar, po, ra, ls⟩
  unfold stepTime
  cases hp : parse_timestamp d.timestamp <;> cases st0 <;> cases et0 <;>
    dsimp only <;> (repeat' split) <;> exact ⟨rfl, rfl⟩

theorem stepLines_group_fields (s : SummState) (d : Doc) :
    (stepLines s d).area = s.area ∧ (stepLines s d).root_area = s.root_area :=
  ⟨rfl, rfl⟩

theorem stepRoot_area (root : Option String) (s : SummState) (d : Doc) :
    (stepRoot root s d).area = s.area := by
  rcases s with ⟨cs, ec, st0, et0, lm, ar, po, ra, ls⟩
  unfold stepRoot
  (repeat' split) <;> simp [apply_ite]

theorem stepArea_area (s : SummState) (d : Doc) :
    (stepArea s d).area = (s.area <|> truthy d.area) := by
  rcases s with ⟨cs, ec, st0, et0, lm, ar, po, ra, ls⟩
  unfold stepArea
  cases h : truthy d.area <;> cases ar <;> simp

theorem stepArea_root_area (s : SummState) (d : Doc) :
    (stepArea s d).root_area = s.root_area := by
  rcases s with ⟨cs, ec, st0, et0, lm, ar, po, ra, ls⟩
  unfold stepArea
  (repeat' split) <;> rfl

theorem stepRoot_root_area (R : String) (hR : R ≠ "") (s : SummState) (d : Doc) :
    (stepRoot (some R) s d).root_area =
      (s.root_area <|>
        (if normalize_operation_id d.operation_id = some R then truthy d.area
         else none)) := by
  have ht : truthy (some R) = some R := by
    show (if R = "" then (none : Option String) else some R) = some R
    rw [if_neg hR]
  rcases s with ⟨cs, ec, st0, et0, lm, ar, po, ra, ls⟩
  unfold stepRoot
  rw [ht]
  by_cases hoid : normalize_operation_id d.operation_id = some R
  · cases h : truthy d.area <;> cases ra <;>
      cases hp : normalize_operation_id d.parent_operation_id <;>
      simp [hoid, h, hp, apply_ite]
  · cases ra <;> simp [hoid]

theorem summStep_area (root : Option String) (s : SummState) (d : Doc) :
    (summStep root s d).area = (s.area <|> truthy d.area) := by
  unfold summStep
  rw [(stepLines_group_fields _ d).1, (stepTime_group_fields _ d).1,
    stepRoot_area root _ d, stepArea_area _ d, (stepLevel_group_fields s d).1]

theorem summStep_root_area (R : String) (hR : R ≠ "") (s : SummState) (d : Doc) :
    (summStep (some R) s d).root_area =
      (s.root_area <|>
        (if normalize_operation_id d.operation_id = some R then truthy d.area
         else none)) := by
  unfold summStep
  rw [(stepLines_group_fields _ d).2, (stepTime_group_fields _ d).2,
    stepRoot_root_area R hR _ d, stepArea_root_area _ d,
    (stepLevel_group_fields s d).2]

theorem foldl_summStep_area (root : Option String) :
    ∀ (docs : List Doc) (s : SummState),
      (docs.foldl (summStep root) s).area = (s.area <|> firstArea docs) := by
  intro docs
  induction docs with
  | nil =>
    intro s
    show s.area = (s.area <|> none)
    cases s.area <;> rfl
  | cons d ds ih =>
    intro s
    rw [List.foldl_cons, ih (summStep root s d), summStep_area root s d,
      option_orElse_assoc, ← firstArea_cons]

theorem foldl_summStep_root_area (R : String) (hR : R ≠ "") :
    ∀ (docs : List Doc) (s : SummState),
      (docs.foldl (summStep (some R)) s).root_area =
        (s.root_area <|> firstArea (rootOwnDocs docs R)) := by
  intro docs
  induction docs with
  | nil =>
    intro s
    show s.root_area = (s.root_area <|> firstArea (rootOwnDocs [] R))
    cases s.root_area <;> rfl
  | cons d ds ih =>
    intro s
    rw [List.foldl_cons, ih (summStep (some R) s d), summStep_root_area R hR s d,
      option_orElse_assoc]
    have : ((if normalize_operation_id d.operation_id = some R then truthy d.area
          else none) <|> firstArea (rootOwnDocs ds R))
        = firstArea (rootOwnDocs (d :: ds) R) := by
      rw [rootOwnDocs_cons]
      by_cases h : normalize_operation_id d.operation_id = some R
      · rw [if_pos h, if_pos h, firstArea_cons]
      · rw [if_neg h, if_neg h, option_none_orElse]
    rw [this]

theorem summarize_area (R : String) (hR : R ≠ "") (docs : List Doc) :
    (summarize_docs docs (some R)).area =
      (firstArea (rootOwnDocs docs R) <|> firstArea docs) := by
  unfold summarize_docs summFinish
  dsimp only
  rw [foldl_summStep_root_area R hR docs {}, foldl_summStep_area (some R) docs {}]
  show (match ((none : Option String) <|> firstArea (rootOwnDocs docs R)) with
    | some ra => if ra = "" then ((none : Option String) <|> firstArea docs)
                 else some ra
    | none => ((none : Option String) <|> firstArea docs))
    = (firstArea (rootOwnDocs docs R) <|> firstArea docs)
  rw [option_none_orElse, option_none_orElse]
  cases h : firstArea (rootOwnDocs docs R) with
  | none => rfl
  | some ra =>
    show (if ra = "" then firstArea docs else some ra) = (some ra <|> firstArea docs)
    rw [if_neg (firstArea_ne_empty h)]
    rfl

/- Parent-map and grouping lemmas for the nested-rollup scenario. -/

theorem bpm_fold_keep : ∀ (docs : List Doc), (∀ d ∈ docs, innerOuterDoc d) →
    docs.foldl bpmStep [("inner", "outer")] = [("inner", "outer")] := by
  intro docs
  induction docs with
  | nil => intro _; rfl
  | cons d ds ih =>
    intro h
    have hstep : bpmStep [("inner", "outer")] d = [("inner", "outer")] := by
      rcases h d (List.mem_cons_self d ds) with ⟨h1, h2⟩ | ⟨h1, h2⟩ <;>
        unfold bpmStep <;> rw [h1, h2] <;> rfl
    rw [List.foldl_cons, hstep]
    exact ih (fun x hx => h x (List.mem_cons_of_mem d hx))

theorem bpm_eq : ∀ (docs : List Doc), (∀ d ∈ docs, innerOuterDoc d) →
    (∃ d ∈ docs, normalize_operation_id d.operation_id = some "inner") →
    build_parent_map docs = [("inner", "outer")] := by
  intro docs
  induction docs with
  | nil =>
    intro _ hex
    rcases hex with ⟨d, hd, _⟩
    exact absurd hd (List.not_mem_nil d)
  | cons d ds ih =>
    intro h hex
    have hcons : build_parent_map (d :: ds) = ds.foldl bpmStep (bpmStep [] d) := rfl
    rcases h d (List.mem_cons_self d ds) with ⟨h1, h2⟩ | ⟨h1, h2⟩
    · have hstep : bpmStep [] d = [("inner", "outer")] := by
        unfold bpmStep
        rw [h1, h2]
        rfl
      rw [hcons, hstep]
      exact bpm_fold_keep ds (fun x hx => h x (List.mem_cons_of_mem d hx))
    · have hstep : bpmStep [] d = [] := by
        unfold bpmStep
        rw [h1, h2]
      rw [hcons, hstep]
      apply ih (fun x hx => h x (List.mem_cons_of_mem d hx))
      rcases hex with ⟨d2, hd2, hd2i⟩
      rcases List.mem_cons.mp hd2 with rfl | hd2t
      · rw [h1] at hd2i
        exact absurd hd2i (by decide)
      · exact ⟨d2, hd2t, hd2i⟩

theorem gcd_fold_outer : ∀ (ds : List Doc), (∀ d ∈ ds, innerOuterDoc d) →
    ∀ (g0 : RollupGroup),
      ∃ ids, ds.foldl (gcdStep [("inner", "outer")]) [("outer", g0)]
        = [("outer", ⟨g0.docs ++ ds, ids⟩)] := by
  intro ds
  induction ds with
  | nil =>
    intro _ g0
    exact ⟨g0.operationIds, by simp⟩
  | cons d ds ih =>
    intro h g0
    rcases h d (List.mem_cons_self d ds) with ⟨h1, _⟩ | ⟨h1, _⟩
    · have hstep : gcdStep [("inner", "outer")] [("outer", g0)] d =
          [("outer", ⟨g0.docs ++ [d],
            if "inner" ∈ g0.operationIds then g0.operationIds
            else g0.operationIds ++ ["inner"]⟩)] := by
        unfold gcdStep
        rw [h1]
        rfl
      obtain ⟨ids, hids⟩ := ih (fun x hx => h x (List.mem_cons_of_mem d hx))
        ⟨g0.docs ++ [d],
         if "inner" ∈ g0.operationIds then g0.operationIds
         else g0.operationIds ++ ["inner"]⟩
      refine ⟨ids, ?_⟩
      rw [List.foldl_cons, hstep, hids]
      simp
    · have hstep : gcdStep [("inner", "outer")] [("outer", g0)] d =
          [("outer", ⟨g0.docs ++ [d],
            if "outer" ∈ g0.operationIds then g0.operationIds
            else g0.operationIds ++ ["outer"]⟩)] := by
        unfold gcdStep
        rw [h1]
        rfl
      obtain ⟨ids, hids⟩ := ih (fun x hx => h x (List.mem_cons_of_mem d hx))
        ⟨g0.docs ++ [d],
         if "outer" ∈ g0.operationIds then g0.operationIds
         else g0.operationIds ++ ["outer"]⟩
      refine ⟨ids, ?_⟩
      rw [List.foldl_cons, hstep, hids]
      simp

theorem group_child_docs_single (docs : List Doc)
    (h : ∀ d ∈ docs, innerOuterDoc d)
    (hinner : ∃ d ∈ docs, normalize_operation_id d.operation_id = some "inner") :
    ∃ ids, group_child_docs docs = [("outer", ⟨docs, ids⟩)] := by
  have hpm : build_parent_map docs = [("inner", "outer")] := bpm_eq docs h hinner
  cases docs with
  | nil =>
    rcases hinner with ⟨d, hd, _⟩
    exact absurd hd (List.not_mem_nil d)
  | cons d ds =>
    have hg : group_child_docs (d :: ds)
        = (d :: ds).foldl (gcdStep (build_parent_map (d :: ds))) [] := rfl
    rw [hg, hpm, List.foldl_cons]
    rcases h d (List.mem_cons_self d ds) with ⟨h1, _⟩ | ⟨h1, _⟩
    · have hstep : gcdStep [("inner", "outer")] [] d = [("outer", ⟨[d], ["inner"]⟩)] := by
        unfold gcdStep
        rw [h1]
        rfl
      rw [hstep]
      obtain ⟨ids, hids⟩ := gcd_fold_outer ds
        (fun x hx => h x (List.mem_cons_of_mem d hx)) ⟨[d], ["inner"]⟩
      exact ⟨ids, by rw [hids]; rfl⟩
    · have hstep : gcdStep [("inner", "outer")] [] d = [("outer", ⟨[d], ["outer"]⟩)] := by
        unfold gcdStep
        rw [h1]
        rfl
      rw [hstep]
      obtain ⟨ids, hids⟩ := gcd_fold_outer ds
        (fun x hx => h x (List.mem_cons_of_mem d hx)) ⟨[d], ["outer"]⟩
      exact ⟨ids, by rw [hids]; rfl⟩

theorem rollupGroupsLoop_single_write (st : Store) (g : RollupGroup)
    (hne : g.docs ≠ []) :
    indexWritesOf (rollupGroupsLoop st [("outer", g)]).2.2.2
      = [("outer", parentDocOf "outer" g.docs)] := by
  have hie : g.docs.isEmpty = false := by
    cases hd : g.docs.isEmpty
    · rfl
    · exact absurd (List.isEmpty_iff.mp hd) hne
  have heff : (rollupGroupsLoop st [("outer", g)]).2.2.2
      = (rollup_group st "outer" g.docs (sortStrings g.operationIds)).2.2 := by
    unfold rollupGroupsLoop
    rw [show sortStrings (List.map Prod.fst [("outer", g)]) = ["outer"] from rfl,
      List.foldl_cons, List.foldl_nil,
      show List.lookup "outer" [("outer", g)] = some g from rfl]
    dsimp only
    split <;> simp
  rw [heff]
  unfold rollup_group
  rw [if_neg (show ¬(g.docs.isEmpty = true) by rw [hie]; exact Bool.false_ne_true)]
  dsimp only
  split <;> (unfold indexWritesOf; simp)

/-- C5: over any collection of child documents in which every document either
carries operation id "inner" with parent operation id "outer" or operation id
"outer" with no parent, with both kinds present, the rollup engine resolves
every document to the single root "outer" by walking the parent map, groups
all of them into the one group keyed "outer", issues exactly one parent-
document write and it is keyed "outer", and that parent's area is the first
truthy area among "outer"'s own entries, falling back to the first truthy
area among all entries only when the root's own entries supplied none. -/
theorem nested_rollup_single_root_and_area (st : Store) (docs : List Doc)
    (hshape : ∀ d ∈ docs, innerOuterDoc d)
    (hinner : ∃ d ∈ docs, normalize_operation_id d.operation_id = some "inner")
    (houter : ∃ d ∈ docs, normalize_operation_id d.operation_id = some "outer") :
    (∀ d ∈ docs, resolve_root (normalize_operation_id d.operation_id)
        (build_parent_map docs) = some "outer")
    ∧ (∃ ids, group_child_docs docs = [("outer", ⟨docs, ids⟩)])
    ∧ indexWritesOf (rollupGroupsLoop st (group_child_docs docs)).2.2.2
        = [("outer", parentDocOf "outer" docs)]
    ∧ (parentDocOf "outer" docs).area
        = (firstArea (rootOwnDocs docs "outer") <|> firstArea docs) := by
  have hpm := bpm_eq docs hshape hinner
  have hne : docs ≠ [] := by
    rcases hinner with ⟨d, hd, _⟩
    intro h0
    rw [h0] at hd
    exact List.not_mem_nil d hd
  obtain ⟨ids, hg⟩ := group_child_docs_single docs hshape hinner
  refine ⟨?_, ⟨ids, hg⟩, ?_, ?_⟩
  · intro d hd
    rcases hshape d hd with ⟨h1, _⟩ | ⟨h1, _⟩ <;> rw [h1, hpm] <;> rfl
  · rw [hg]
    exact rollupGroupsLoop_single_write st ⟨docs, ids⟩ hne
  · show (summarize_docs docs (some "outer")).area = _
    exact summarize_area "outer" (by decide) docs

/-- Closed instance of the nested-rollup theorem on the two-document
scenario, every hypothesis discharged by evaluation: the parent write is
keyed "outer" and its area is "api" (the root's own area) even though the
first area in scan order is "jobs". -/
theorem nested_rollup_single_root_and_area_witness :
    (∀ d ∈ demoNested, innerOuterDoc d)
    ∧ (∃ d ∈ demoNested, normalize_operation_id d.operation_id = some "inner")
    ∧ (∃ d ∈ demoNested, normalize_operation_id d.operation_id = some "outer")
    ∧ ((∀ d ∈ demoNested, resolve_root (normalize_operation_id d.operation_id)
          (build_parent_map demoNested) = some "outer")
      ∧ (∃ ids, group_child_docs demoNested = [("outer", ⟨demoNested, ids⟩)])
      ∧ indexWritesOf (rollupGroupsLoop [] (group_child_docs demoNested)).2.2.2
          = [("outer", parentDocOf "outer" demoNested)]
      ∧ (parentDocOf "outer" demoNested).area
          = (firstArea (rootOwnDocs demoNested "outer") <|> firstArea demoNested)) :=
  ⟨by decide, by decide, by decide,
   nested_rollup_single_root_and_area [] demoNested (by decide) (by decide)
     (by decide)⟩

end Devlogs
